import Mathlib

/-!
Verification development for the P1150 host-side driver.

Byte strings are modelled as `List Nat` (each element a byte value),
Python floats as `ℚ` (exact arithmetic; the driver only compares and
scales sampled values, so rational arithmetic is a faithful model of the
comparisons the code performs), and fallible paths as `Option`/flags.
Each definition is a shallow embedding of the Python function of the
same (or closely corresponding) name.  The `while` loops of the source
are embedded as structurally recursive functions over an explicit fuel
argument; the top-level entry points supply fuel that is proved (or
immediately seen) to dominate the loop's iteration count, so the fuel
never runs out on the calls the source actually makes.
-/

namespace P1150

/-! ## COBS codec (`p1150_driver/cobs_c/cobs_donotuse.py`) -/

/-- Index of the first zero byte in `d`; equals `d.length` when there is
none.  Models Python `data.index(b'\0')` (which raises when no zero is
present; `enc` below only evaluates it on data that contains a zero, where
the two agree). -/
def index0 : List Nat → Nat
  | [] => 0
  | b :: t => if b = 0 then 0 else index0 t + 1

/-- The `while` loop of `enc`, operating on `data = x ++ [0]`.
Each iteration emits one code group and drops the consumed bytes; the
`d.drop 254 = [0]` test is the early exit ("No need to send extra
`\x01` byte - receiver can infer").  Every iteration drops at least one
byte, so fuel `> d.length` never runs out. -/
def encBody (fuel : Nat) (d : List Nat) : List Nat :=
  match fuel with
  | 0 => []
  | fuel + 1 =>
    if d = [] then []
    else
      let i := index0 d
      if 254 ≤ i then
        if d.drop 254 = [0] then 255 :: d.take 254
        else 255 :: (d.take 254 ++ encBody fuel (d.drop 254))
      else (i + 1) :: (d.take i ++ encBody fuel (d.drop (i + 1)))

/-- `enc(data)`: append the "fake" zero and run the grouping loop. -/
def enc (x : List Nat) : List Nat := encBody (x.length + 2) (x ++ [0])

/-- The `while` loop of `dec`: walk the code bytes, zeroing the next code
position (for codes `< 255`) or recording it for deletion (code `= 255`).
`code = 0` makes the Python loop spin forever, and a set position past the
end of `out` raises `IndexError`; both are modelled as `none`.  The index
strictly increases each iteration, so fuel `> data.length` never runs
out. -/
def decStep (data : List Nat) (fuel idx : Nat) (out del : List Nat) :
    Option (List Nat × List Nat) :=
  match fuel with
  | 0 => none
  | fuel + 1 =>
    if idx < data.length then
      let code := data.getD idx 0
      if code = 0 then none
      else if code = 255 ∧ idx = data.length then
        -- "Zero at end already added" — unreachable, kept from the source
        decStep data fuel (idx + code) out del
      else if code < 255 then
        if idx + code < data.length + 1 then
          decStep data fuel (idx + code) (out.set (idx + code) 0) del
        else none
      else decStep data fuel (idx + code) out (del ++ [idx + code])
    else some (out, del)

/-- One deletion pass `r = r[:idx-1] + r[idx:]` (removes the element at
position `idx - 1`; the `idx = 0` case reproduces Python's negative-index
wraparound, though `dec` only ever records indices `≥ 255`). -/
def delAt (r : List Nat) (i : Nat) : List Nat :=
  if i = 0 then r.dropLast else r.take (i - 1) ++ r.drop i

/-- `dec(dd)`: seed `out` with `dd ++ [0]`, run the code walk, slice off
the first code byte and the appended slot, then apply the recorded
deletions from right to left. -/
def dec (dd : List Nat) : Option (List Nat) :=
  let n := dd.length
  match decStep dd (n + 1) 0 (dd ++ [0]) [] with
  | none => none
  | some (out, del) =>
      some (del.reverse.foldl delAt ((out.drop 1).take (n - 1)))

/-! ### Structure of `enc` output

`enc x` is a sequence of code groups.  A group `(l+1) :: chunk` with
`l = chunk.length ≤ 253` encodes `chunk` followed by a zero of the padded
input; a group `255 :: chunk` with `chunk.length = 254` encodes `chunk`
with no zero consumed.  The final group's zero (if any) is the appended
"fake" zero, so it contributes `chunk` only. -/

inductive EncGroups : List Nat → List Nat → Prop
  | last_small (chunk : List Nat) (h : chunk.length ≤ 253) :
      EncGroups ((chunk.length + 1) :: chunk) chunk
  | last_full (chunk : List Nat) (h : chunk.length = 254) :
      EncGroups (255 :: chunk) chunk
  | cons_small (chunk s' y' : List Nat) (h : chunk.length ≤ 253)
      (hg : EncGroups s' y') :
      EncGroups ((chunk.length + 1) :: (chunk ++ s')) (chunk ++ 0 :: y')
  | cons_full (chunk s' y' : List Nat) (h : chunk.length = 254)
      (hg : EncGroups s' y') :
      EncGroups (255 :: (chunk ++ s')) (chunk ++ y')

theorem encBody_nil (fuel : Nat) : encBody fuel [] = [] := by
  cases fuel <;> simp [encBody]

theorem index0_le_length (d : List Nat) : index0 d ≤ d.length := by
  induction d with
  | nil => simp [index0]
  | cons b t ih =>
    by_cases hb : b = 0 <;> simp [index0, hb] <;> omega

theorem index0_append_le (x : List Nat) : index0 (x ++ [0]) ≤ x.length := by
  induction x with
  | nil => simp [index0]
  | cons b t ih =>
    by_cases hb : b = 0 <;> simp [index0, hb] <;> omega

theorem index0_zero (d : List Nat) (h : index0 d < d.length) :
    d.getD (index0 d) 1 = 0 := by
  induction d with
  | nil => simp [index0] at h
  | cons b t ih =>
    by_cases hb : b = 0
    · simp [index0, hb]
    · simp only [index0, hb, if_false, List.getD_cons_succ]
      exact ih (by simpa [index0, hb] using h)

/-- `enc` produces a well-formed group stream for its input. -/
theorem encBody_groups :
    ∀ (n : Nat) (x : List Nat) (fuel : Nat), x.length ≤ n →
      x.length + 1 < fuel → EncGroups (encBody fuel (x ++ [0])) x := by
  intro n
  induction n with
  | zero =>
    intro x fuel hx hf
    have hx0 : x = [] := List.length_eq_zero.mp (Nat.le_zero.mp hx)
    subst hx0
    match fuel, hf with
    | fuel + 1, _ =>
      simp only [List.nil_append, encBody, index0]
      norm_num [encBody_nil]
      simpa using EncGroups.last_small [] (by simp)
  | succ n ih =>
    intro x fuel hx hf
    match fuel, hf with
    | fuel + 1, _ =>
      have hd : ¬(x ++ [0] = []) := by simp
      set i := index0 (x ++ [0]) with hi
      have hile : i ≤ x.length := index0_append_le x
      by_cases h254 : 254 ≤ i
      · -- full group: the first 254 bytes of `x` are emitted verbatim
        have hxlen : 254 ≤ x.length := le_trans h254 hile
        have htake : (x ++ [0]).take 254 = x.take 254 :=
          List.take_append_of_le_length hxlen
        have hdrop : (x ++ [0]).drop 254 = x.drop 254 ++ [0] :=
          List.drop_append_of_le_length hxlen
        rw [encBody]
        simp only [hd, if_false, ← hi, h254, if_true, htake, hdrop]
        by_cases hearly : x.drop 254 ++ [0] = [0]
        · -- early exit: `x` is exactly 254 bytes
          have hx254 : x.length = 254 := by
            have hnil : x.drop 254 = [] := by
              cases hx' : x.drop 254 with
              | nil => rfl
              | cons a l => rw [hx'] at hearly; simp at hearly
            have := List.drop_eq_nil_iff.mp hnil
            omega
          have hxtake : x.take 254 = x := List.take_of_length_le (le_of_eq hx254)
          rw [if_pos hearly, hxtake]
          exact EncGroups.last_full x hx254
        · -- full group followed by more groups
          have hxgt : 254 < x.length := by
            rcases Nat.lt_or_ge 254 x.length with h | h
            · exact h
            · exfalso
              have hx254 : x.length = 254 := le_antisymm h hxlen
              have : x.drop 254 = [] := List.drop_eq_nil_iff.mpr (le_of_eq hx254)
              rw [this] at hearly
              simp at hearly
          have hrec : EncGroups (encBody fuel (x.drop 254 ++ [0])) (x.drop 254) := by
            apply ih (x.drop 254) fuel
            · simp only [List.length_drop]; omega
            · simp only [List.length_drop]; omega
          rw [if_neg hearly]
          have := EncGroups.cons_full (x.take 254) _ _
            (by simp [List.length_take]; omega) hrec
          simpa [List.take_append_drop] using this
      · -- small group
        push_neg at h254
        by_cases hieq : i = x.length
        · -- the zero found is the appended fake zero: final group
          have htake : (x ++ [0]).take i = x := by
            rw [hieq]; exact List.take_left x [0]
          have hdropnil : (x ++ [0]).drop (i + 1) = [] := by
            apply List.drop_eq_nil_iff.mpr
            simp [hieq]
          rw [encBody]
          simp only [hd, if_false, ← hi, Nat.not_le.mpr h254, if_false, htake, hdropnil,
            encBody_nil]
          have : EncGroups ((x.length + 1) :: x) x :=
            EncGroups.last_small x (by omega)
          simpa [hieq] using this
        · -- the zero is inside `x`: group plus the rest
          have hilt : i < x.length := lt_of_le_of_ne hile hieq
          have hx0 : x.getD i 1 = 0 := by
            have := index0_zero (x ++ [0]) (by simp; omega)
            rwa [← hi, List.getD_append _ _ _ _ hilt] at this
          have htake : (x ++ [0]).take i = x.take i :=
            List.take_append_of_le_length hile
          have hdrop : (x ++ [0]).drop (i + 1) = x.drop (i + 1) ++ [0] :=
            List.drop_append_of_le_length (by omega)
          have hrec : EncGroups (encBody fuel (x.drop (i + 1) ++ [0])) (x.drop (i + 1)) := by
            apply ih (x.drop (i + 1)) fuel
            · simp only [List.length_drop]; omega
            · simp only [List.length_drop]; omega
          rw [encBody]
          simp only [hd, if_false, ← hi, Nat.not_le.mpr h254, if_false, htake, hdrop]
          have hsplit : x.take i ++ 0 :: x.drop (i + 1) = x := by
            have h1 : x.drop i = x.getD i 1 :: x.drop (i + 1) := by
              rw [List.getD_eq_getElem _ _ hilt]
              exact List.drop_eq_getElem_cons hilt
            calc x.take i ++ 0 :: x.drop (i + 1)
                = x.take i ++ x.drop i := by rw [h1, hx0]
              _ = x := List.take_append_drop i x
          have hlen : (x.take i).length = i := List.length_take_of_le (le_of_lt hilt)
          have := EncGroups.cons_small (x.take i) _ _ (by omega) hrec
          rw [hlen] at this
          simpa [hsplit] using this

theorem enc_groups (x : List Nat) : EncGroups (enc x) x :=
  encBody_groups x.length x (x.length + 2) le_rfl (by omega)

/-! ### What the decode walk does on a group stream

`decStep` reads only group-start positions.  Starting at offset `p`, the
positions it sets to zero are `zmarks s p` (one per group with code
`< 255`) and those appended to the deletion list are `dmarks s p` (one
per code-`255` group), each at the start of the following group. -/

def zmarks (s : List Nat) (p : Nat) : List Nat :=
  match s with
  | [] => []
  | c :: rest =>
    if c < 255 then (p + c) :: zmarks (rest.drop (c - 1)) (p + c)
    else zmarks (rest.drop (c - 1)) (p + c)
termination_by s.length
decreasing_by all_goals (simp only [List.length_drop, List.length_cons]; omega)

def dmarks (s : List Nat) (p : Nat) : List Nat :=
  match s with
  | [] => []
  | c :: rest =>
    if c < 255 then dmarks (rest.drop (c - 1)) (p + c)
    else (p + c) :: dmarks (rest.drop (c - 1)) (p + c)
termination_by s.length
decreasing_by all_goals (simp only [List.length_drop, List.length_cons]; omega)

def applyZeros (out : List Nat) (zs : List Nat) : List Nat :=
  zs.foldl (fun o q => o.set q 0) out

theorem decStep_exit (data : List Nat) (fuel idx : Nat) (out del : List Nat)
    (hidx : data.length ≤ idx) (hfuel : 1 ≤ fuel) :
    decStep data fuel idx out del = some (out, del) := by
  match fuel, hfuel with
  | fuel + 1, _ => simp [decStep, Nat.not_lt.mpr hidx]

theorem getD_append_start (pre s : List Nat) (d : Nat) :
    (pre ++ s).getD pre.length d = s.getD 0 d := by
  rw [List.getD_append_right _ _ _ _ le_rfl, Nat.sub_self]

/-- Unfold lemmas for the mark functions. -/
theorem zmarks_nil (p : Nat) : zmarks [] p = [] := by
  rw [zmarks.eq_def]

theorem zmarks_cons (c : Nat) (rest : List Nat) (p : Nat) :
    zmarks (c :: rest) p =
      if c < 255 then (p + c) :: zmarks (rest.drop (c - 1)) (p + c)
      else zmarks (rest.drop (c - 1)) (p + c) := by
  rw [zmarks.eq_def]

theorem dmarks_nil (p : Nat) : dmarks [] p = [] := by
  rw [dmarks.eq_def]

theorem dmarks_cons (c : Nat) (rest : List Nat) (p : Nat) :
    dmarks (c :: rest) p =
      if c < 255 then dmarks (rest.drop (c - 1)) (p + c)
      else (p + c) :: dmarks (rest.drop (c - 1)) (p + c) := by
  rw [dmarks.eq_def]

/-- A non-final small-code step of the decode walk. -/
theorem decStep_succ_small (data : List Nat) (fuel idx : Nat)
    (out del : List Nat) (hlt : idx < data.length)
    (h0 : data.getD idx 0 ≠ 0) (h255 : data.getD idx 0 < 255)
    (hb : idx + data.getD idx 0 < data.length + 1) :
    decStep data (fuel + 1) idx out del =
      decStep data fuel (idx + data.getD idx 0)
        (out.set (idx + data.getD idx 0) 0) del := by
  rw [decStep]
  simp only [hlt, if_true]
  rw [if_neg h0, if_neg (by rintro ⟨h1, h2⟩; omega), if_pos h255, if_pos hb]

/-- A code-255 step of the decode walk. -/
theorem decStep_succ_full (data : List Nat) (fuel idx : Nat)
    (out del : List Nat) (hlt : idx < data.length)
    (hc : data.getD idx 0 = 255) :
    decStep data (fuel + 1) idx out del =
      decStep data fuel (idx + 255) out (del ++ [idx + 255]) := by
  rw [decStep]
  simp only [hlt, if_true, hc]
  rw [if_neg (by omega), if_neg (by rintro ⟨h1, h2⟩; omega),
    if_neg (by omega)]

/-- The decode walk on a group stream starting at `pre.length` succeeds
and performs exactly the `zmarks`/`dmarks` updates. -/
theorem decStep_groups {s y : List Nat} (hg : EncGroups s y) :
    ∀ (pre out del : List Nat) (fuel : Nat), s.length < fuel →
      decStep (pre ++ s) fuel pre.length out del =
        some (applyZeros out (zmarks s pre.length),
              del ++ dmarks s pre.length) := by
  induction hg with
  | last_small chunk h =>
    intro pre out del fuel hf
    match fuel, hf with
    | fuel + 1, hf =>
      have hlen : (pre ++ (chunk.length + 1) :: chunk).length
          = pre.length + chunk.length + 1 := by
        simp only [List.length_append, List.length_cons]; omega
      have hcode : (pre ++ (chunk.length + 1) :: chunk).getD pre.length 0
          = chunk.length + 1 := by rw [getD_append_start]; rfl
      rw [decStep_succ_small _ _ _ _ _ (by omega) (by omega)
        (by rw [hcode]; omega) (by rw [hcode, hlen]; omega), hcode]
      rw [decStep_exit _ _ _ _ _ (by omega)
        (by simp only [List.length_cons] at hf; omega)]
      rw [zmarks_cons, dmarks_cons, if_pos (by omega), if_pos (by omega)]
      have hdrop : chunk.drop (chunk.length + 1 - 1) = [] := by simp
      rw [hdrop, zmarks_nil, dmarks_nil]
      simp [applyZeros]
  | last_full chunk h =>
    intro pre out del fuel hf
    match fuel, hf with
    | fuel + 1, hf =>
      have hlen : (pre ++ 255 :: chunk).length = pre.length + 255 := by
        simp only [List.length_append, List.length_cons, h]
      have hcode : (pre ++ 255 :: chunk).getD pre.length 0 = 255 := by
        rw [getD_append_start]; rfl
      rw [decStep_succ_full _ _ _ _ _ (by omega) hcode]
      rw [decStep_exit _ _ _ _ _ (by omega)
        (by simp only [List.length_cons] at hf; omega)]
      rw [zmarks_cons, dmarks_cons, if_neg (by omega), if_neg (by omega)]
      have hdrop : chunk.drop (255 - 1) = [] := by
        apply List.drop_eq_nil_iff.mpr; omega
      rw [hdrop, zmarks_nil, dmarks_nil]
      simp [applyZeros]
  | cons_small chunk s' y' h hg ih =>
    intro pre out del fuel hf
    match fuel, hf with
    | fuel + 1, hf =>
      have hs'pos : 0 < s'.length := by cases hg <;> simp
      have hslen : ((chunk.length + 1) :: (chunk ++ s')).length
          = chunk.length + 1 + s'.length := by
        simp only [List.length_cons, List.length_append]; omega
      have hlen : (pre ++ (chunk.length + 1) :: (chunk ++ s')).length
          = pre.length + chunk.length + 1 + s'.length := by
        simp only [List.length_append, List.length_cons]; omega
      have hcode : (pre ++ (chunk.length + 1) :: (chunk ++ s')).getD
          pre.length 0 = chunk.length + 1 := by
        rw [getD_append_start]; rfl
      rw [decStep_succ_small _ _ _ _ _ (by omega) (by omega)
        (by rw [hcode]; omega) (by rw [hcode, hlen]; omega), hcode]
      have hassoc : pre ++ (chunk.length + 1) :: (chunk ++ s')
          = (pre ++ (chunk.length + 1) :: chunk) ++ s' := by simp
      have hplen : (pre ++ (chunk.length + 1) :: chunk).length
          = pre.length + (chunk.length + 1) := by
        simp only [List.length_append, List.length_cons]
      rw [hassoc]
      have hrec := ih (pre ++ (chunk.length + 1) :: chunk)
        (out.set (pre.length + (chunk.length + 1)) 0) del fuel
        (by rw [hslen] at hf; omega)
      rw [hplen] at hrec
      rw [hrec]
      rw [zmarks_cons, dmarks_cons, if_pos (by omega), if_pos (by omega)]
      have hdrop : (chunk ++ s').drop (chunk.length + 1 - 1) = s' := by
        have he : chunk.length + 1 - 1 = chunk.length := by omega
        rw [he, List.drop_left]
      rw [hdrop]
      simp only [applyZeros, List.foldl_cons]
  | cons_full chunk s' y' h hg ih =>
    intro pre out del fuel hf
    match fuel, hf with
    | fuel + 1, hf =>
      have hslen : (255 :: (chunk ++ s')).length = 255 + s'.length := by
        simp only [List.length_cons, List.length_append, h]; omega
      have hlen : (pre ++ 255 :: (chunk ++ s')).length
          = pre.length + 255 + s'.length := by
        simp only [List.length_append, List.length_cons, h]; omega
      have hcode : (pre ++ 255 :: (chunk ++ s')).getD pre.length 0 = 255 := by
        rw [getD_append_start]; rfl
      rw [decStep_succ_full _ _ _ _ _ (by omega) hcode]
      have hassoc : pre ++ 255 :: (chunk ++ s')
          = (pre ++ 255 :: chunk) ++ s' := by simp
      have hplen : (pre ++ 255 :: chunk).length = pre.length + 255 := by
        simp only [List.length_append, List.length_cons, h]
      rw [hassoc]
      have hrec := ih (pre ++ 255 :: chunk) out (del ++ [pre.length + 255])
        fuel (by rw [hslen] at hf; omega)
      rw [hplen] at hrec
      rw [hrec]
      rw [zmarks_cons, dmarks_cons, if_neg (by omega), if_neg (by omega)]
      have hdrop : (chunk ++ s').drop (255 - 1) = s' := by
        have he : (255 : Nat) - 1 = chunk.length := by omega
        rw [he, List.drop_left]
      rw [hdrop]
      simp only [List.append_assoc, List.singleton_append]

/-! ### Reassembly: zero marks and deletions restore the original bytes -/

theorem applyZeros_nil (out : List Nat) : applyZeros out [] = out := rfl

theorem applyZeros_cons (out : List Nat) (q : Nat) (zs : List Nat) :
    applyZeros out (q :: zs) = applyZeros (out.set q 0) zs := rfl

theorem length_applyZeros (zs : List Nat) :
    ∀ out : List Nat, (applyZeros out zs).length = out.length := by
  induction zs with
  | nil => intro out; rfl
  | cons q zs ih =>
    intro out
    rw [applyZeros_cons, ih, List.length_set]

theorem applyZeros_append_shift (zs : List Nat) :
    ∀ (a b : List Nat),
      applyZeros (a ++ b) (zs.map (· + a.length)) = a ++ applyZeros b zs := by
  induction zs with
  | nil => intro a b; rfl
  | cons q zs ih =>
    intro a b
    simp only [List.map_cons, applyZeros_cons]
    rw [List.set_append, if_neg (by omega), Nat.add_sub_cancel]
    exact ih a (b.set q 0)

theorem applyZeros_set_zero_comm (zs : List Nat) :
    ∀ (X : List Nat) (v : Nat), (∀ q ∈ zs, 1 ≤ q) →
      applyZeros (X.set 0 v) zs = (applyZeros X zs).set 0 v := by
  induction zs with
  | nil => intro X v _; rfl
  | cons q zs ih =>
    intro X v h
    simp only [applyZeros_cons]
    rw [List.set_comm _ _ _ (by have := h q (by simp); omega)]
    exact ih (X.set q 0) v (fun r hr => h r (by simp [hr]))

theorem zmarks_shift :
    ∀ (n : Nat) (s : List Nat), s.length ≤ n → ∀ p,
      zmarks s p = (zmarks s 0).map (· + p) := by
  intro n
  induction n with
  | zero =>
    intro s hs p
    have hnil : s = [] := List.length_eq_zero.mp (by omega)
    subst hnil
    simp [zmarks_nil]
  | succ n ih =>
    intro s hs p
    match s with
    | [] => simp [zmarks_nil]
    | c :: rest =>
      have hlen : (rest.drop (c - 1)).length ≤ n := by
        simp only [List.length_drop]
        simp only [List.length_cons] at hs
        omega
      by_cases hc : c < 255
      · rw [zmarks_cons, zmarks_cons, if_pos hc, if_pos hc,
          ih _ hlen (p + c), ih _ hlen (0 + c)]
        simp only [List.map_cons, List.map_map]
        congr 1
        · omega
        · congr 1
          funext q
          show q + (p + c) = q + (0 + c) + p
          omega
      · rw [zmarks_cons, zmarks_cons, if_neg hc, if_neg hc,
          ih _ hlen (p + c), ih _ hlen (0 + c), List.map_map]
        congr 1
        funext q
        show q + (p + c) = q + (0 + c) + p
        omega

theorem dmarks_shift :
    ∀ (n : Nat) (s : List Nat), s.length ≤ n → ∀ p,
      dmarks s p = (dmarks s 0).map (· + p) := by
  intro n
  induction n with
  | zero =>
    intro s hs p
    have hnil : s = [] := List.length_eq_zero.mp (by omega)
    subst hnil
    simp [dmarks_nil]
  | succ n ih =>
    intro s hs p
    match s with
    | [] => simp [dmarks_nil]
    | c :: rest =>
      have hlen : (rest.drop (c - 1)).length ≤ n := by
        simp only [List.length_drop]
        simp only [List.length_cons] at hs
        omega
      by_cases hc : c < 255
      · rw [dmarks_cons, dmarks_cons, if_pos hc, if_pos hc,
          ih _ hlen (p + c), ih _ hlen (0 + c), List.map_map]
        congr 1
        funext q
        show q + (p + c) = q + (0 + c) + p
        omega
      · rw [dmarks_cons, dmarks_cons, if_neg hc, if_neg hc,
          ih _ hlen (p + c), ih _ hlen (0 + c)]
        simp only [List.map_cons, List.map_map]
        congr 1
        · omega
        · congr 1
          funext q
          show q + (p + c) = q + (0 + c) + p
          omega

theorem zmarks_ge {s y : List Nat} (hg : EncGroups s y) :
    ∀ p q, q ∈ zmarks s p → p + 1 ≤ q := by
  induction hg with
  | last_small chunk h =>
    intro p q hq
    rw [zmarks_cons, if_pos (by omega),
      show chunk.drop (chunk.length + 1 - 1) = [] from by simp,
      zmarks_nil] at hq
    simp only [List.mem_singleton] at hq
    omega
  | last_full chunk h =>
    intro p q hq
    rw [zmarks_cons, if_neg (by omega),
      show chunk.drop (255 - 1) = [] from
        List.drop_eq_nil_iff.mpr (by omega),
      zmarks_nil] at hq
    simp at hq
  | cons_small chunk s' y' h hg ih =>
    intro p q hq
    rw [zmarks_cons, if_pos (by omega),
      show (chunk ++ s').drop (chunk.length + 1 - 1) = s' from by
        rw [show chunk.length + 1 - 1 = chunk.length from by omega,
          List.drop_left]] at hq
    rcases List.mem_cons.mp hq with rfl | hmem
    · omega
    · have := ih _ _ hmem
      omega
  | cons_full chunk s' y' h hg ih =>
    intro p q hq
    rw [zmarks_cons, if_neg (by omega),
      show (chunk ++ s').drop (255 - 1) = s' from by
        rw [show (255 : Nat) - 1 = chunk.length from by omega,
          List.drop_left]] at hq
    have := ih _ _ hq
    omega

theorem dmarks_ge {s y : List Nat} (hg : EncGroups s y) :
    ∀ p q, q ∈ dmarks s p → p + 1 ≤ q := by
  induction hg with
  | last_small chunk h =>
    intro p q hq
    rw [dmarks_cons, if_pos (by omega),
      show chunk.drop (chunk.length + 1 - 1) = [] from by simp,
      dmarks_nil] at hq
    simp at hq
  | last_full chunk h =>
    intro p q hq
    rw [dmarks_cons, if_neg (by omega),
      show chunk.drop (255 - 1) = [] from
        List.drop_eq_nil_iff.mpr (by omega),
      dmarks_nil] at hq
    simp only [List.mem_singleton] at hq
    omega
  | cons_small chunk s' y' h hg ih =>
    intro p q hq
    rw [dmarks_cons, if_pos (by omega),
      show (chunk ++ s').drop (chunk.length + 1 - 1) = s' from by
        rw [show chunk.length + 1 - 1 = chunk.length from by omega,
          List.drop_left]] at hq
    have := ih _ _ hq
    omega
  | cons_full chunk s' y' h hg ih =>
    intro p q hq
    rw [dmarks_cons, if_neg (by omega),
      show (chunk ++ s').drop (255 - 1) = s' from by
        rw [show (255 : Nat) - 1 = chunk.length from by omega,
          List.drop_left]] at hq
    rcases List.mem_cons.mp hq with rfl | hmem
    · omega
    · have := ih _ _ hmem
      omega

theorem delAt_append_shift (a b : List Nat) (q : Nat) (hq : 1 ≤ q) :
    delAt (a ++ b) (q + a.length) = a ++ delAt b q := by
  unfold delAt
  rw [if_neg (by omega), if_neg (by omega)]
  rw [show q + a.length - 1 = a.length + (q - 1) from by omega,
    show q + a.length = a.length + q from by omega,
    List.take_append, List.drop_append, List.append_assoc]

theorem delFold_append_shift (ds : List Nat) :
    ∀ (a b : List Nat), (∀ q ∈ ds, 1 ≤ q) →
      (ds.map (· + a.length)).foldl delAt (a ++ b)
        = a ++ ds.foldl delAt b := by
  induction ds with
  | nil => intro a b _; rfl
  | cons q ds ih =>
    intro a b h
    simp only [List.map_cons, List.foldl_cons]
    rw [delAt_append_shift a b q (h q (by simp))]
    exact ih a (delAt b q) (fun r hr => h r (by simp [hr]))

theorem applyZeros_append_shift' (zs a b : List Nat) (k : Nat)
    (hk : a.length = k) :
    applyZeros (a ++ b) (zs.map (· + k)) = a ++ applyZeros b zs := by
  subst hk; exact applyZeros_append_shift zs a b

theorem delFold_append_shift' (ds a b : List Nat) (k : Nat)
    (hk : a.length = k) (h : ∀ q ∈ ds, 1 ≤ q) :
    (ds.map (· + k)).foldl delAt (a ++ b) = a ++ ds.foldl delAt b := by
  subst hk; exact delFold_append_shift ds a b h

theorem EncGroups.length_pos {s y : List Nat} (hg : EncGroups s y) :
    0 < s.length := by
  cases hg <;> simp

/-- Applying the zero marks to the seeded buffer and then the deletions
recovers the decoded bytes of the group stream. -/
theorem delFold_reassemble {s y : List Nat} (hg : EncGroups s y) :
    (dmarks s 0).reverse.foldl delAt
      (((applyZeros (s ++ [0]) (zmarks s 0)).drop 1).take (s.length - 1))
      = y := by
  induction hg with
  | last_small chunk h =>
    rw [zmarks_cons, if_pos (by omega), dmarks_cons, if_pos (by omega),
      show chunk.drop (chunk.length + 1 - 1) = [] from by simp,
      zmarks_nil, dmarks_nil, applyZeros_cons, applyZeros_nil]
    simp only [Nat.zero_add, List.cons_append, List.set_cons_succ,
      List.length_cons, List.reverse_nil, List.foldl_nil]
    rw [List.set_append, if_neg (by omega), Nat.sub_self,
      List.set_cons_zero, List.drop_succ_cons, List.drop_zero,
      Nat.add_sub_cancel, List.take_left]
  | last_full chunk h =>
    rw [zmarks_cons, if_neg (by omega), dmarks_cons, if_neg (by omega),
      show chunk.drop (255 - 1) = [] from
        List.drop_eq_nil_iff.mpr (by omega),
      zmarks_nil, dmarks_nil, applyZeros_nil]
    simp only [Nat.zero_add, List.cons_append, List.length_cons,
      List.drop_succ_cons, List.drop_zero, Nat.add_sub_cancel,
      List.reverse_cons, List.reverse_nil, List.nil_append,
      List.foldl_cons, List.foldl_nil]
    rw [List.take_left, delAt, if_neg (by omega),
      List.take_of_length_le (by omega),
      List.drop_eq_nil_iff.mpr (by omega), List.append_nil]
  | cons_small chunk s' y' h hg ih =>
    have hn' : 0 < s'.length := hg.length_pos
    set L := chunk.length with hL
    set B := applyZeros (s' ++ [0]) (zmarks s' 0) with hBdef
    have hBlen : B.length = s'.length + 1 := by
      rw [hBdef, length_applyZeros, List.length_append, List.length_cons,
        List.length_nil]
    obtain ⟨b0, Bt, hB⟩ : ∃ b0 Bt, B = b0 :: Bt := by
      cases hBv : B with
      | nil => rw [hBv] at hBlen; simp at hBlen
      | cons a l => exact ⟨a, l, rfl⟩
    rw [zmarks_cons, if_pos (by omega),
      show (chunk ++ s').drop (L + 1 - 1) = s' from by
        rw [show L + 1 - 1 = chunk.length from by omega, List.drop_left],
      dmarks_cons, if_pos (by omega),
      show (chunk ++ s').drop (L + 1 - 1) = s' from by
        rw [show L + 1 - 1 = chunk.length from by omega, List.drop_left]]
    simp only [Nat.zero_add]
    rw [zmarks_shift s'.length s' le_rfl (L + 1),
      dmarks_shift s'.length s' le_rfl (L + 1),
      applyZeros_cons]
    have hsplit : (((L + 1) :: (chunk ++ s')) ++ [0]).set (L + 1) 0
        = ((L + 1) :: chunk) ++ (s' ++ [0]).set 0 0 := by
      simp only [List.cons_append, List.append_assoc, List.set_cons_succ]
      rw [List.set_append, if_neg (by omega), Nat.sub_self]
    rw [hsplit,
      applyZeros_append_shift' _ _ _ _ (by simp),
      applyZeros_set_zero_comm _ _ _
        (fun q hq => zmarks_ge hg 0 q hq),
      ← hBdef, hB, List.set_cons_zero]
    simp only [List.cons_append, List.drop_succ_cons, List.drop_zero,
      List.length_cons, List.length_append, Nat.add_sub_cancel]
    rw [List.take_append,
      show s'.length = (s'.length - 1) + 1 from by omega,
      List.take_succ_cons,
      ← List.map_reverse,
      show chunk ++ 0 :: Bt.take (s'.length - 1)
        = (chunk ++ [0]) ++ Bt.take (s'.length - 1) from by simp,
      delFold_append_shift' _ _ _ _
        (by simp only [List.length_append, List.length_cons,
          List.length_nil]; try omega)
        (fun q hq => by
          have := dmarks_ge hg 0 q (List.mem_reverse.mp hq)
          omega)]
    have hIH : (dmarks s' 0).reverse.foldl delAt (Bt.take (s'.length - 1))
        = y' := by
      have hthis := ih
      rw [hB] at hthis
      simpa using hthis
    rw [hIH]
    simp
  | cons_full chunk s' y' h hg ih =>
    have hn' : 0 < s'.length := hg.length_pos
    set B := applyZeros (s' ++ [0]) (zmarks s' 0) with hBdef
    have hBlen : B.length = s'.length + 1 := by
      rw [hBdef, length_applyZeros, List.length_append, List.length_cons,
        List.length_nil]
    obtain ⟨b0, Bt, hB⟩ : ∃ b0 Bt, B = b0 :: Bt := by
      cases hBv : B with
      | nil => rw [hBv] at hBlen; simp at hBlen
      | cons a l => exact ⟨a, l, rfl⟩
    rw [zmarks_cons, if_neg (by omega),
      show (chunk ++ s').drop (255 - 1) = s' from by
        rw [show (255 : Nat) - 1 = chunk.length from by omega,
          List.drop_left],
      dmarks_cons, if_neg (by omega),
      show (chunk ++ s').drop (255 - 1) = s' from by
        rw [show (255 : Nat) - 1 = chunk.length from by omega,
          List.drop_left]]
    simp only [Nat.zero_add]
    rw [zmarks_shift s'.length s' le_rfl 255,
      dmarks_shift s'.length s' le_rfl 255]
    have hsplit : ((255 :: (chunk ++ s')) ++ [0])
        = (255 :: chunk) ++ (s' ++ [0]) := by
      simp
    rw [hsplit,
      applyZeros_append_shift' _ _ _ _ (by simp [h]),
      ← hBdef, hB]
    simp only [List.cons_append, List.drop_succ_cons, List.drop_zero,
      List.length_cons, List.length_append]
    rw [show chunk.length + s'.length + 1 - 1
        = chunk.length + s'.length from by omega]
    rw [List.take_append,
      show s'.length = (s'.length - 1) + 1 from by omega,
      List.take_succ_cons,
      List.reverse_cons, ← List.map_reverse, List.foldl_append,
      show chunk ++ b0 :: Bt.take (s'.length - 1)
        = (chunk ++ [b0]) ++ Bt.take (s'.length - 1) from by simp,
      delFold_append_shift' _ _ _ 255 (by simp [h])
        (fun q hq => by
          have := dmarks_ge hg 0 q (List.mem_reverse.mp hq)
          omega)]
    have hIH : (dmarks s' 0).reverse.foldl delAt (Bt.take (s'.length - 1))
        = y' := by
      have hthis := ih
      rw [hB] at hthis
      simpa using hthis
    rw [hIH]
    simp only [List.foldl_cons, List.foldl_nil]
    rw [delAt, if_neg (by omega)]
    rw [show (chunk ++ [b0]) ++ y' = chunk ++ b0 :: y' from by simp,
      List.take_append_of_le_length (by omega),
      List.take_of_length_le (by omega),
      show (255 : Nat) = ((chunk ++ [b0]).length : Nat) from by simp [h],
      show chunk ++ b0 :: y' = (chunk ++ [b0]) ++ y' from by simp,
      List.drop_left]

theorem dec_enc (x : List Nat) : dec (enc x) = some x := by
  have hg := enc_groups x
  have hd := decStep_groups hg [] (enc x ++ [0]) [] ((enc x).length + 1)
    (by omega)
  simp only [List.nil_append, List.length_nil] at hd
  unfold dec
  simp only []
  rw [hd]
  exact congrArg some (delFold_reassemble hg)

/-- **C1** (COBS round-trip): for every byte string `x`, including strings
with embedded zero bytes and strings whose lengths sit at the 253/254/255
boundaries, `dec (enc x) = some x` for the COBS encoder `enc` and decoder
`dec` of `cobs_donotuse.py`. -/
theorem cobs_roundtrip (x : List Nat) (hx : ∀ b ∈ x, b ≤ 255) :
    dec (enc x) = some x := dec_enc x

/-- Witness for `cobs_roundtrip` at a concrete byte string. -/
theorem cobs_roundtrip_witness :
    (∀ b ∈ [65, 0, 66], b ≤ 255) ∧ dec (enc [65, 0, 66]) = some [65, 0, 66] :=
  ⟨by decide, cobs_roundtrip [65, 0, 66] (by decide)⟩

/-! ## Mux codec (`uclog.py`, constants from `logdata.py`) -/

def LOG_TYPE_PORT : Nat := 0x03
def TARGET_DIGIT_SHIFT : Nat := 20

/-- The dispatch decision `MuxDecode.__call__` makes for a deframed
frame: which handler (if registered) receives which argument. -/
inductive MuxEvent
  | drop
  | port (p : Nat) (payload : List Nat)
  | log (target addr : Nat) (payload : List Nat)
  | error (frame : List Nat)
deriving DecidableEq

/-- `struct.unpack('<I', bs)[0]` for a 4-byte string. -/
def leU32 (bs : List Nat) : Nat :=
  bs.getD 0 0 + 256 * bs.getD 1 0 + 65536 * bs.getD 2 0
    + 16777216 * bs.getD 3 0

/-- `MuxDecode.__call__(frame)`: empty frames are dropped; a tag with
type field `PORT` routes the remainder to the port handler; otherwise the
first 4 bytes of the frame (`frame[:4]`, tag byte included) are the
little-endian address of a log frame, and short frames go to `error`. -/
def MuxDecode (frame : List Nat) : MuxEvent :=
  if frame.length = 0 then .drop
  else
    let p := frame.getD 0 0 / 4
    let t := frame.getD 0 0 % 4
    if t = LOG_TYPE_PORT then .port p (frame.drop 1)
    else if 4 ≤ frame.length then
      let addr := leU32 (frame.take 4)
      .log ((addr >>> TARGET_DIGIT_SHIFT) &&& 0xf) addr (frame.drop 4)
    else .error frame

/-- `MuxEncode.__call__(frame)` for the encoder bound to `port`. -/
def MuxEncode (port : Nat) (frame : List Nat) : List Nat :=
  ((port <<< 2) ||| LOG_TYPE_PORT) :: frame

theorem muxTag_eq (p : Nat) : (p <<< 2) ||| LOG_TYPE_PORT = 4 * p + 3 := by
  have h1 : p <<< 2 = Nat.bit false (Nat.bit false p) := by
    simp only [Nat.bit, Nat.shiftLeft_eq, cond_false]
    ring
  have h2 : LOG_TYPE_PORT = Nat.bit true (Nat.bit true 0) := by
    simp [Nat.bit, LOG_TYPE_PORT]
  rw [h1, h2, Nat.lor_bit, Nat.lor_bit]
  simp only [Bool.false_or, Nat.or_zero, Nat.bit, cond_true]
  ring

/-- **C4** (Mux round-trip): for every port `p` in `0..7` and every
payload byte string `b`, decoding the frame produced by the port-`p` mux
encoder (which prefixes the tag byte `(p << 2) | PORT`) delivers exactly
`b` to the handler registered for port `p`. -/
theorem mux_roundtrip (p : Nat) (hp : p ≤ 7) (b : List Nat) :
    MuxDecode (MuxEncode p b) = MuxEvent.port p b := by
  unfold MuxDecode MuxEncode
  rw [muxTag_eq]
  simp only [List.length_cons, List.getD_cons_zero, List.drop_succ_cons,
    List.drop_zero]
  rw [if_neg (by omega), if_pos (by rw [LOG_TYPE_PORT]; omega)]
  congr 1
  omega

/-- Witness for `mux_roundtrip`. -/
theorem mux_roundtrip_witness :
    (5 : Nat) ≤ 7 ∧ MuxDecode (MuxEncode 5 [9, 8, 7]) = MuxEvent.port 5 [9, 8, 7] :=
  ⟨by decide, mux_roundtrip 5 (by decide) [9, 8, 7]⟩

/-- Counterexample to **C7** as stated: the code unpacks `frame[:4]`
(tag byte included) as the address, not the 4 bytes after the tag, and a
log-tagged frame of total length 4 (only 3 bytes after the tag) goes to
the log handler, not the error handler. -/
theorem mux_log_frame_counterexample :
    MuxDecode [4, 1, 0, 0, 0] = MuxEvent.log 0 260 [0] ∧
    ¬(MuxDecode [4, 1, 0, 0, 0] = MuxEvent.log 0 1 []) ∧
    MuxDecode [0, 0, 0, 1] = MuxEvent.log 0 16777216 [] ∧
    ¬(MuxDecode [0, 0, 0, 1] = MuxEvent.error [0, 0, 0, 1]) := by
  decide

/-- **C7** amended: for every deframed frame whose tag byte has type
field not equal to `PORT`, the first 4 bytes of the frame (tag byte
included) are read as an unsigned 32-bit little-endian address, the
target is `(address >> 20) & 0xF`, and `(target, address, frame[4:])` is
delivered to the log handler; a log-tagged frame with total length less
than 4 (fewer than 3 bytes after the tag) is delivered to the error
handler instead. -/
theorem mux_log_dispatch (frame : List Nat) (hne : frame ≠ [])
    (htag : frame.getD 0 0 % 4 ≠ LOG_TYPE_PORT) :
    (4 ≤ frame.length →
      MuxDecode frame = MuxEvent.log
        ((leU32 (frame.take 4) >>> TARGET_DIGIT_SHIFT) &&& 0xf)
        (leU32 (frame.take 4)) (frame.drop 4)) ∧
    (frame.length < 4 → MuxDecode frame = MuxEvent.error frame) := by
  have hlen : ¬(frame.length = 0) := by
    simpa [List.length_eq_zero] using hne
  constructor
  · intro h4
    unfold MuxDecode
    rw [if_neg hlen, if_neg htag, if_pos h4]
  · intro h4
    unfold MuxDecode
    rw [if_neg hlen, if_neg htag, if_neg (by omega)]

/-- Witness for `mux_log_dispatch`. -/
theorem mux_log_dispatch_witness :
    MuxDecode [4, 1, 0, 0, 0] = MuxEvent.log 0 260 [0] ∧
    MuxDecode [8, 1] = MuxEvent.error [8, 1] := by
  constructor
  · have h := (mux_log_dispatch [4, 1, 0, 0, 0] (by decide) (by decide)).1
      (by decide)
    exact h.trans (by decide)
  · exact (mux_log_dispatch [8, 1] (by decide) (by decide)).2 (by decide)

/-! ## Command/response matcher (`UCLogger` in `p1150_driver/P1150.py`;
the copy in `P1150.py` at the repository root is identical) -/

/-- A CBOR-decoded port-0 response map: the optional correlation field
`"f"`, the success flag `"s"`, and an opaque payload id standing for the
remaining fields. -/
structure RespItem where
  f : Option String
  s : Bool
  payload : Nat
deriving DecidableEq

/-- The matcher state shared between `_uclog_cmdres` (receiver thread)
and `uclog_response` (caller): the `_cmd_responses` dictionary and the
`_result_event` flag. -/
structure MatcherState where
  cmdResponses : List (String × List RespItem)
  resultEvent : Bool
deriving DecidableEq

/-- Python dict assignment `d[f] = v`: replace an existing binding or
append a new one. -/
def dictSet (m : List (String × List RespItem)) (f : String)
    (v : List RespItem) : List (String × List RespItem) :=
  if (m.lookup f).isSome then
    m.map (fun kv => if kv.1 = f then (f, v) else kv)
  else m ++ [(f, v)]

/-- What `_uclog_cmdres` reports to the log. -/
inductive CmdresEffect
  | errorNoF
  | matched
  | unexpected
deriving DecidableEq

/-- `UCLogger._uclog_cmdres(item)` after CBOR decoding: frames without
`"f"` are logged as errors; responses for a reserved key are appended
and the result event is set; responses for an unreserved key create a
fresh single-item list, log a warning, and leave the event alone. -/
def uclog_cmdres (st : MatcherState) (item : RespItem) :
    MatcherState × CmdresEffect :=
  match item.f with
  | none => (st, .errorNoF)
  | some f =>
    match st.cmdResponses.lookup f with
    | some l =>
        ({ cmdResponses := dictSet st.cmdResponses f (l ++ [item]),
           resultEvent := true }, .matched)
    | none =>
        ({ cmdResponses := dictSet st.cmdResponses f [item],
           resultEvent := st.resultEvent }, .unexpected)

theorem lookup_map_update (m : List (String × List RespItem))
    (f : String) (v : List RespItem) (h : (m.lookup f).isSome) :
    (m.map (fun kv => if kv.1 = f then (f, v) else kv)).lookup f
      = some v := by
  induction m with
  | nil => simp [List.lookup] at h
  | cons kv m ih =>
    obtain ⟨k, w⟩ := kv
    by_cases hk : k = f
    · have hhead : (if (k, w).1 = f then (f, v) else (k, w)) = (f, v) := by
        simp [hk]
      simp only [List.map_cons]
      rw [hhead]
      simp [List.lookup]
    · have hhead : (if (k, w).1 = f then (f, v) else (k, w)) = (k, w) := by
        simp [hk]
      have hne : (f == k) = false := by
        simp only [beq_eq_false_iff_ne, ne_eq]
        exact fun he => hk he.symm
      simp only [List.map_cons]
      rw [hhead]
      simp only [List.lookup, hne]
      exact ih (by simpa [List.lookup, hne] using h)

theorem lookup_append_new_eq (m : List (String × List RespItem))
    (f : String) (v : List RespItem) (h : m.lookup f = none) :
    (m ++ [(f, v)]).lookup f = some v := by
  induction m with
  | nil => simp [List.lookup]
  | cons kv m ih =>
    obtain ⟨k, w⟩ := kv
    by_cases hk : (f == k) = true
    · simp [List.lookup, hk] at h
    · simp only [Bool.not_eq_true] at hk
      simp only [List.cons_append, List.lookup, hk]
      exact ih (by simpa [List.lookup, hk] using h)

theorem lookup_map_update_other (m : List (String × List RespItem))
    (f g : String) (v : List RespItem) (hg : g ≠ f) :
    (m.map (fun kv => if kv.1 = f then (f, v) else kv)).lookup g
      = m.lookup g := by
  induction m with
  | nil => simp
  | cons kv m ih =>
    obtain ⟨k, w⟩ := kv
    by_cases hk : k = f
    · have hhead : (if (k, w).1 = f then (f, v) else (k, w)) = (f, v) := by
        simp [hk]
      have hne : (g == f) = false := by simpa using hg
      have hne2 : (g == k) = false := by rw [hk]; exact hne
      simp only [List.map_cons]
      rw [hhead]
      simp [List.lookup, hne, hne2, ih]
    · have hhead : (if (k, w).1 = f then (f, v) else (k, w)) = (k, w) := by
        simp [hk]
      by_cases hgk : (g == k) = true
      · simp only [List.map_cons]
        rw [hhead]
        simp [List.lookup, hgk]
      · simp only [Bool.not_eq_true] at hgk
        simp only [List.map_cons]
        rw [hhead]
        simp [List.lookup, hgk, ih]

theorem lookup_append_other (m : List (String × List RespItem))
    (f g : String) (v : List RespItem) (hg : g ≠ f) :
    ((m ++ [(f, v)]).lookup g) = m.lookup g := by
  have hne : (g == f) = false := by simpa using hg
  induction m with
  | nil => simp [List.lookup, hne]
  | cons kv m ih =>
    obtain ⟨k, w⟩ := kv
    by_cases hgk : (g == k) = true
    · simp [List.lookup, hgk]
    · simp only [Bool.not_eq_true] at hgk
      simpa [List.lookup, hgk] using ih

theorem lookup_dictSet_self (m : List (String × List RespItem))
    (f : String) (v : List RespItem) :
    (dictSet m f v).lookup f = some v := by
  unfold dictSet
  by_cases hs : (m.lookup f).isSome
  · rw [if_pos hs]
    exact lookup_map_update m f v hs
  · rw [if_neg hs]
    exact lookup_append_new_eq m f v
      (Option.not_isSome_iff_eq_none.mp hs)

theorem lookup_dictSet_other (m : List (String × List RespItem))
    (f g : String) (v : List RespItem) (hg : g ≠ f) :
    (dictSet m f v).lookup g = m.lookup g := by
  unfold dictSet
  by_cases hs : (m.lookup f).isSome
  · rw [if_pos hs]
    exact lookup_map_update_other m f g v hg
  · rw [if_neg hs]
    exact lookup_append_other m f g v hg

/-- **C8** (unexpected-response isolation): for every port-0 response map
whose `"f"` key was not reserved by a pending caller, the receiver logs a
warning and appends the response to a newly created list for that key,
and this never sets the result event — and every other key's pending
list is untouched — so no call blocked in `uclog_response` (for any
other key) is unblocked by it. -/
theorem unexpected_response_isolation (st : MatcherState) (item : RespItem)
    (f : String) (hf : item.f = some f)
    (hnew : st.cmdResponses.lookup f = none) :
    ((uclog_cmdres st item).2 = CmdresEffect.unexpected) ∧
    ((uclog_cmdres st item).1.resultEvent = st.resultEvent) ∧
    ((uclog_cmdres st item).1.cmdResponses.lookup f = some [item]) ∧
    (∀ g, g ≠ f →
      (uclog_cmdres st item).1.cmdResponses.lookup g
        = st.cmdResponses.lookup g) := by
  have h1 : uclog_cmdres st item
      = ({ cmdResponses := dictSet st.cmdResponses f [item],
           resultEvent := st.resultEvent }, .unexpected) := by
    unfold uclog_cmdres
    simp only [hf]
    rw [hnew]
  rw [h1]
  exact ⟨rfl, rfl, lookup_dictSet_self _ _ _,
    fun g hgf => lookup_dictSet_other _ _ _ _ hgf⟩

/-- Witness for `unexpected_response_isolation`. -/
theorem unexpected_response_isolation_witness :
    (uclog_cmdres ⟨[], false⟩ ⟨some "cmd_ping", true, 0⟩).2
        = CmdresEffect.unexpected ∧
    (uclog_cmdres ⟨[], false⟩ ⟨some "cmd_ping", true, 0⟩).1.resultEvent
        = false := by
  have h := unexpected_response_isolation ⟨[], false⟩
    ⟨some "cmd_ping", true, 0⟩ "cmd_ping" rfl (by decide)
  exact ⟨h.1, h.2.1⟩

/-- `l[-1]["s"]`: success flag of the last collected response. -/
def lastS (l : List RespItem) : Bool :=
  match l.getLast? with
  | some it => it.s
  | none => false

/-- The retry loop of `uclog_response` (`retries = 8; while True: ...`).
`got k` models the result of the k-th `_result_event.wait(timeout=0.10)`
call (true iff the event was set within the 100 ms timeout); `respAt k`
models `_cmd_responses[f]` as observed under the lock after the k-th
wait (`none` when the key is absent).  `retries` is the counter value
before the iteration's decrement and `waits` counts the `wait` calls
performed so far; the returned pair is `(success, responses)` together
with the total number of `wait` calls.  The loop structure guarantees
the `retries = 0` arm of the outer match is never reached from the
initial value 8. -/
def uclogResponseLoop (got : Nat → Bool) (respAt : Nat → Option (List RespItem)) :
    Nat → Nat → (Bool × Option (List RespItem)) × Nat
  | 0, waits => ((false, none), waits)
  | r + 1, waits =>
    if r = 0 then ((false, none), waits)
    else if got waits then
      match respAt waits with
      | some l =>
          if l.length ≠ 0 then ((lastS l, some l), waits + 1)
          else uclogResponseLoop got respAt r (waits + 1)
      | none => uclogResponseLoop got respAt r (waits + 1)
    else uclogResponseLoop got respAt r (waits + 1)

/-- Counterexample to **C3** as stated: with no response ever arriving,
the loop performs only 7 `wait(timeout=0.10)` calls (≈ 700 ms), not 8
(≈ 800 ms): the 8th iteration hits `retries == 0` and returns before
waiting. -/
theorem uclog_timeout_counterexample :
    (uclogResponseLoop (fun _ => false) (fun _ => some []) 8 0).2 = 7 ∧
    ¬((uclogResponseLoop (fun _ => false) (fun _ => some []) 8 0).2 = 8) := by
  decide

/-- **C3** amended: when no response for the sent key ever arrives (the
result event never becomes set within an iteration's 100 ms timeout),
`uclog_response` waits on the result event 7 times with a 100 ms timeout
each (≈ 700 ms effective) over its 8 loop iterations and, when the
iteration budget is exhausted, returns `(False, None)`. -/
theorem uclog_response_timeout (got : Nat → Bool)
    (respAt : Nat → Option (List RespItem)) (h : ∀ k, got k = false) :
    uclogResponseLoop got respAt 8 0 = ((false, none), 7) := by
  have hg : got = fun _ => false := funext h
  subst hg
  rfl

/-- Witness for `uclog_response_timeout`. -/
theorem uclog_response_timeout_witness :
    uclogResponseLoop (fun _ => false) (fun _ => some []) 8 0
      = ((false, none), 7) :=
  uclog_response_timeout (fun _ => false) (fun _ => some [])
    (fun _ => rfl)

/-! ## ADC low-pass filter (`UCLogger._uclog_adc`, inner `lpf`) -/

/-- Rounding used by `np.round`: round half to even. -/
def roundHalfEven (q : ℚ) : ℤ :=
  let n := ⌊q⌋
  let frac := q - n
  if frac < 1/2 then n
  else if frac > 1/2 then n + 1
  else if n % 2 = 0 then n else n + 1

/-- `np.round(·, 6)`. -/
def npRound6 (q : ℚ) : ℚ := (roundHalfEven (q * 1000000) : ℚ) / 1000000

/-- `np.convolve(t, w, mode='valid')`: `out[k] = Σ_j w[j] · t[k + |w| - 1 - j]`
for `k < |t| - |w| + 1` (the kernel is reversed, as in a convolution). -/
def convValid (t w : List ℚ) : List ℚ :=
  (List.range (t.length + 1 - w.length)).map (fun k =>
    (List.range w.length).foldl
      (fun acc j => acc + w.getD j 0 * t.getD (k + (w.length - 1) - j) 0) 0)

/-- The inner `lpf(x, z)` closure of `_uclog_adc`: re-seed the cache from
the first two samples when its first entry is `0.0`, prepend the cache,
convolve with `(0.11, 0.78, 0.11)`, round to 6 decimal places, and carry
the last two raw samples (`x[-2:]`) forward. -/
def lpf (x z : List ℚ) : List ℚ × List ℚ :=
  let z' := if z.getD 0 0 = 0
    then (z.set 0 (x.getD 0 0)).set 1 (x.getD 1 0)
    else z
  let t := z' ++ x
  let w : List ℚ := [11/100, 78/100, 11/100]
  let r := (convValid t w).map npRound6
  (r, x.drop (x.length - 2))

/-- Counterexample to **C9** as stated: a 50-sample packet produces 50
filtered output samples (`len(t) - 3 + 1 = 50`), not 48. -/
theorem lpf_counterexample :
    (lpf (List.replicate 50 1) [1, 1]).1.length = 50 ∧
    ¬((lpf (List.replicate 50 1) [1, 1]).1.length = 48) := by
  constructor
  · rfl
  · intro h
    rw [show (lpf (List.replicate 50 1) [1, 1]).1.length = 50 from rfl] at h
    omega

theorem convValid_getD (t w : List ℚ) (k : Nat)
    (hk : k < t.length + 1 - w.length) :
    (convValid t w).getD k 0
      = (List.range w.length).foldl
          (fun acc j => acc + w.getD j 0 * t.getD (k + (w.length - 1) - j) 0)
          0 := by
  rw [convValid,
    List.getD_eq_getElem _ _ (by simpa using hk),
    List.getElem_map, List.getElem_range]

/-- **C9** amended: when the filter is enabled and the cached first
sample is nonzero (otherwise the cache is first re-seeded from the
current packet's first two samples), processing one 50-sample packet
prepends the two cached samples from the previous packet, convolves with
weights `(0.11, 0.78, 0.11)` and rounds to 6 decimal places, emits the
50 samples of the valid convolution, and retains the last two samples of
the current raw input as the next prefix. -/
theorem lpf_output (x z : List ℚ) (hx : x.length = 50) (hz : z.length = 2)
    (hz0 : z.getD 0 0 ≠ 0) :
    (lpf x z).1.length = 50 ∧
    (lpf x z).2 = [x.getD 48 0, x.getD 49 0] ∧
    (∀ k, k < 50 → (lpf x z).1.getD k 0
      = npRound6 (11/100 * (z ++ x).getD k 0
          + 78/100 * (z ++ x).getD (k + 1) 0
          + 11/100 * (z ++ x).getD (k + 2) 0)) := by
  have hz' : (if z.getD 0 0 = 0
      then (z.set 0 (x.getD 0 0)).set 1 (x.getD 1 0) else z) = z :=
    if_neg hz0
  have htlen : (z ++ x).length = 52 := by
    rw [List.length_append, hx, hz]
  have hconvlen : (convValid (z ++ x) [11/100, 78/100, 11/100]).length
      = 50 := by
    rw [convValid, List.length_map, List.length_range, htlen]
    rfl
  refine ⟨?_, ?_, ?_⟩
  · show ((convValid _ _).map npRound6).length = 50
    rw [hz']
    rw [List.length_map, hconvlen]
  · show x.drop (x.length - 2) = _
    rw [hx]
    have h48 : 48 < x.length := by omega
    have h49 : 49 < x.length := by omega
    rw [List.drop_eq_getElem_cons (by omega : 48 < x.length)]
    rw [List.drop_eq_getElem_cons (by omega : 49 < x.length)]
    rw [List.drop_eq_nil_iff.mpr (by omega)]
    rw [List.getD_eq_getElem _ _ h48, List.getD_eq_getElem _ _ h49]
  · intro k hk
    show ((convValid _ _).map npRound6).getD k 0 = _
    rw [hz']
    have hk50 : k < (convValid (z ++ x) [11/100, 78/100, 11/100]).length := by
      rw [hconvlen]; omega
    have hkc : k < ((convValid (z ++ x) [11/100, 78/100, 11/100]).map
        npRound6).length := by
      rw [List.length_map]; exact hk50
    rw [List.getD_eq_getElem _ _ hkc, List.getElem_map,
      ← List.getD_eq_getElem _ 0 hk50]
    congr 1
    rw [convValid_getD _ _ _ (by simp [htlen]; omega)]
    rw [show ([11/100, 78/100, 11/100] : List ℚ).length = 3 from rfl,
      show List.range 3 = [0, 1, 2] from rfl]
    simp only [List.foldl_cons, List.foldl_nil, List.getD_cons_zero,
      List.getD_cons_succ]
    rw [show k + (3 - 1) - 0 = k + 2 from by omega,
      show k + (3 - 1) - 1 = k + 1 from by omega,
      show k + (3 - 1) - 2 = k from by omega]
    ring

/-- Witness for `lpf_output`. -/
theorem lpf_output_witness :
    (lpf (List.replicate 50 (1 : ℚ)) [1, 1]).1.length = 50 ∧
    (lpf (List.replicate 50 (1 : ℚ)) [1, 1]).2 = [1, 1] := by
  have h := lpf_output (List.replicate 50 1) [1, 1]
    (by decide) (by decide) (by decide)
  exact ⟨h.1, h.2.1.trans (by decide)⟩

/-! ## Trigger engine (`P1150` in `p1150_driver/P1150.py`)

The engine state collects the instance attributes touched by
`_event_adc_stream_in`, `_event_clear_datardy`, `_set_trigger_idx`,
`set_timebase`, `set_trigger` and `acquisition_get_data`.  The
`threading.Event` objects are booleans, numpy arrays are `List ℚ`, and
the two exception escapes of the ingest path (numpy `IndexError` /
`ValueError` on mismatched slice assignments, `TypeError` on mixed-type
comparisons) are modelled with `Except`/`Option`, carrying the partially
mutated state exactly as the in-place numpy mutations leave it. -/

def ACQUIRE_MODE_RUN : String := "ACQUIRE_MODE_RUN"
def ACQUIRE_MODE_SINGLE : String := "ACQUIRE_MODE_SINGLE"
def ACQUIRE_MODE_LOGGER : String := "ACQUIRE_MODE_LOGGER"
def TRIG_SRC_NONE : String := "TRIG_SRC_NONE"
def TRIG_SRC_CUR : String := "TRIG_SRC_CUR"
def TRIG_SRC_D0 : String := "TRIG_SRC_D0"
def TRIG_SRC_D0S : String := "TRIG_SRC_D0S"
def TRIG_SRC_D1 : String := "TRIG_SRC_D1"
def TRIG_SRC_A0A : String := "TRIG_SRC_A0A"
def TRIG_POS_CENTER : String := "TRIG_POS_CENTER"
def TRIG_POS_LEFT : String := "TRIG_POS_LEFT"
def TRIG_POS_RIGHT : String := "TRIG_POS_RIGHT"
def TRIG_SLOPE_RISE : String := "TRIG_SLOPE_RISE"
def TRIG_SLOPE_FALL : String := "TRIG_SLOPE_FALL"
def TRIG_SLOPE_EITHER : String := "TRIG_SLOPE_EITHER"

def D0_VLOW : ℚ := 20
def D1_VLOW : ℚ := 40
def D0_VHIGH : ℚ := 1000
def D1_VHIGH : ℚ := 1100
def ADC_SAMPLE_RATE : ℚ := 125000

/-- `TBASE_MAP`, with the float spans as exact rationals (the float
products `125000.0 * span` all truncate to the same integers as the
exact products, so downstream `int(...)` values agree). -/
def TBASE_MAP (span : String) : Option ℚ :=
  if span = "TBASE_SPAN_10MS" then some (1/100)
  else if span = "TBASE_SPAN_20MS" then some (1/50)
  else if span = "TBASE_SPAN_50MS" then some (1/20)
  else if span = "TBASE_SPAN_100MS" then some (1/10)
  else if span = "TBASE_SPAN_200MS" then some (1/5)
  else if span = "TBASE_SPAN_500MS" then some (1/2)
  else if span = "TBASE_SPAN_1S" then some 1
  else if span = "TBASE_SPAN_2S" then some 2
  else if span = "TBASE_SPAN_5S" then some 5
  else if span = "TBASE_SPAN_10S" then some 10
  else none

/-- Python `int(q)`: truncation toward zero. -/
def pyInt (q : ℚ) : ℤ := if 0 ≤ q then ⌊q⌋ else -⌊-q⌋

/-- A trigger level: `set_trigger` accepts `int` (mA/mV) or a character
string for the `D0S` source. -/
inductive Level
  | num (q : ℚ)
  | str (s : String)
deriving DecidableEq

structure Window where
  t : List ℚ
  i : List ℚ
  a0 : List ℚ
  d0 : List ℚ
  d0s : List String
  d1 : List ℚ
  isnk : List ℚ
  fill : Nat
deriving DecidableEq

structure AdcBuf where
  t : List ℚ
  i : List ℚ
  a0 : List ℚ
  d0 : List ℚ
  d0s : List String
  d1 : List ℚ
  isnk : List ℚ
  len : Nat
deriving DecidableEq

/-- A decoded port-3 packet as handed to `adc_stream_in`. -/
structure AdcItem where
  c : Nat
  i : List ℚ
  isnk : List ℚ
  a0 : List ℚ
  d01 : List Nat
  d0s : List String
  a : Nat
deriving DecidableEq

structure EngineState where
  acquire : Bool
  acquireMode : String
  acquireTriggered : Bool
  acquireDatardy : Bool
  triggerLevel : Level
  triggerPos : String
  triggerSlope : String
  triggerSrc : String
  triggerIdx : Nat
  triggerIdxPrecond : Bool
  timebaseSpan : ℚ
  timebaseTRecalc : Bool
  oscT : List ℚ
  numSamples : Nat
  adc : Window
  adcBuf : AdcBuf
  bufferedAdcFrameCount : Option Nat
  cbRegistered : Bool
deriving DecidableEq

/-- `P1150._event_clear_datardy`: recompute `NUM_SAMPLES`, reallocate the
window, clear `triggered` and `data_ready`. -/
def eventClearDatardy (s : EngineState) : EngineState :=
  let n := (pyInt (ADC_SAMPLE_RATE * s.timebaseSpan)).toNat
  { s with
    numSamples := n,
    adc := { t := List.replicate n 0, i := List.replicate n 0,
             a0 := List.replicate n 0, d0 := List.replicate n 0,
             d0s := List.replicate n "", d1 := List.replicate n 0,
             isnk := List.replicate n 0, fill := 0 },
    acquireTriggered := false,
    acquireDatardy := false }

/-- `P1150._set_trigger_idx`.  `int(N/2)`, `int(N/4)` and
`int(N - N/4)` are exact in float for every reachable `N`, giving
`⌊N/2⌋`, `⌊N/4⌋` and `⌊3N/4⌋`. -/
def setTriggerIdx (s : EngineState) : EngineState :=
  let idx :=
    if s.triggerPos = TRIG_POS_CENTER then s.numSamples / 2
    else if s.triggerPos = TRIG_POS_LEFT then s.numSamples / 4
    else (3 * s.numSamples) / 4
  { s with triggerIdx := idx, timebaseTRecalc := true }

/-- `P1150.set_timebase(span)` (under the stream lock): store the span,
abort the current acquisition via `_event_clear_datardy`, recompute the
trigger index.  An unknown span raises `KeyError` (`none`); the method
returns `(True, None)`. -/
def set_timebase (s : EngineState) (span : String) : Option EngineState :=
  match TBASE_MAP span with
  | none => none
  | some tb => some (setTriggerIdx (eventClearDatardy { s with timebaseSpan := tb }))

/-- `P1150.set_trigger(src, pos, slope, level)` (under the stream lock):
digital sources `D0`/`D1` force the stored level to `int(D0_VHIGH / 2)`;
everything else stores the caller's level; `pos`, `slope`, `src` are
recorded verbatim.  No geometry is touched. -/
def set_trigger (s : EngineState) (src pos slope : String) (level : Level) :
    EngineState :=
  let lvl := if src = TRIG_SRC_D0 ∨ src = TRIG_SRC_D1
    then Level.num ((pyInt (D0_VHIGH / 2) : ℤ) : ℚ)
    else level
  { s with
    triggerLevel := lvl
    triggerPos := pos
    triggerSlope := slope
    triggerSrc := src }

/-- The payload `acquisition_get_data` hands back. -/
inductive GetDataResult
  | errorNoData
  | data (t i a0 d0 d1 isnk : List ℚ)
deriving DecidableEq

/-- `P1150.acquisition_get_data()`: without `data_ready`, log an error
and return `(False, {"ERROR": "No data to get"})` leaving all state
alone; otherwise return copies of the six channels and reset the window
via `_event_clear_datardy`. -/
def acquisition_get_data (s : EngineState) :
    (Bool × GetDataResult) × EngineState :=
  if ¬ s.acquireDatardy then ((false, .errorNoData), s)
  else ((true, .data s.adc.t s.adc.i s.adc.a0 s.adc.d0 s.adc.d1 s.adc.isnk),
        eventClearDatardy s)

/-! ### The per-packet ingest step `_event_adc_stream_in` -/

/-- numpy slice assignment `a[start:start+len(xs)] = xs` (in range in
every reachable use). -/
def setSlice {α : Type} (a : List α) (start : Nat) (xs : List α) : List α :=
  a.take start ++ xs ++ a.drop (start + xs.length)

/-- `self._trig_src_map`; an unmapped source raises `KeyError`. -/
def trigSrcMap (src : String) : Option String :=
  if src = TRIG_SRC_CUR then some "i"
  else if src = TRIG_SRC_A0A then some "a0"
  else if src = TRIG_SRC_D0 then some "d0"
  else if src = TRIG_SRC_D0S then some "d0s"
  else if src = TRIG_SRC_D1 then some "d1"
  else none

def getNumChan (w : Window) (key : String) : List ℚ :=
  if key = "i" then w.i
  else if key = "a0" then w.a0
  else if key = "d0" then w.d0
  else if key = "d1" then w.d1
  else w.isnk

inductive TrigVal
  | num (q : ℚ)
  | str (s : String)
deriving DecidableEq

/-- `adc[trig_src][idx_trigger_pos]`; `none` is the `IndexError` on an
out-of-range trigger index. -/
def readTrig (w : Window) (key : String) (idx : Nat) : Option TrigVal :=
  if key = "d0s" then
    if idx < w.d0s.length then some (.str (w.d0s.getD idx "")) else none
  else
    if idx < (getNumChan w key).length then
      some (.num ((getNumChan w key).getD idx 0))
    else none

/-- The `EITHER` slope pre-resolution: compare the current value at the
trigger index against `self._trigger_level`; `none` models the
`IndexError`/`TypeError` Python raises on an out-of-range index or a
number/string mix. -/
def resolveSlope (w : Window) (key : String) (idx : Nat) (level : Level)
    (slope : String) : Option String :=
  if slope = TRIG_SLOPE_EITHER then
    match readTrig w key idx, level with
    | some (.num v), .num l =>
        some (if v < l then TRIG_SLOPE_RISE else TRIG_SLOPE_FALL)
    | some (.str v), .str l =>
        some (if v < l then TRIG_SLOPE_RISE else TRIG_SLOPE_FALL)
    | _, _ => none
  else some slope

/-- One slope-machine evaluation: `some (precond', fired)`, or `none`
for the `TypeError` of comparing a string sample with a numeric level.
A numeric sample compared with `==` against a string level is just
unequal in Python, so it falls through without firing. -/
def trigCompare (val : TrigVal) (level : Level) (slope : String)
    (precond : Bool) : Option (Bool × Bool) :=
  match level with
  | .num l =>
    match val with
    | .num v =>
      if slope = TRIG_SLOPE_RISE then
        if ¬ precond then some ((if v < l then true else precond), false)
        else if v > l then some (precond, true)
        else some (precond, false)
      else
        if ¬ precond then some ((if v > l then true else precond), false)
        else if v < l then some (precond, true)
        else some (precond, false)
    | .str _ => none
  | .str l =>
    match val with
    | .str v => some (precond, v = l)
    | .num _ => some (precond, false)

/-- `a[:-1] = a[1:]` (no-op on an empty array). -/
def slShift (a : List ℚ) : List ℚ :=
  match a.getLast? with
  | none => a
  | some lst => a.drop 1 ++ [lst]

/-- `a[-1] = v`; `none` is the `IndexError` on an empty array. -/
def setLastNum (a : List ℚ) (v : ℚ) : Option (List ℚ) :=
  if a.isEmpty then none else some (a.dropLast ++ [v])

/-- One FIFO push of a sample into the window: shift the five numeric
channels, write the new tail values, reassign `d0s`.  `.error` carries
the window as left by the in-place mutations when an assignment raises. -/
def pushSample (w : Window) (vi va0 vd0 vd1 visnk : ℚ) (vs : String) :
    Except Window Window :=
  let w1 := { w with i := slShift w.i, a0 := slShift w.a0,
                     d0 := slShift w.d0, d1 := slShift w.d1,
                     isnk := slShift w.isnk }
  match setLastNum w1.i vi with
  | none => .error w1
  | some ci =>
    let w2 := { w1 with i := ci }
    match setLastNum w2.a0 va0 with
    | none => .error w2
    | some ca0 =>
      let w3 := { w2 with a0 := ca0 }
      match setLastNum w3.d0 vd0 with
      | none => .error w3
      | some cd0 =>
        let w4 := { w3 with d0 := cd0 }
        match setLastNum w4.d1 vd1 with
        | none => .error w4
        | some cd1 =>
          let w5 := { w4 with d1 := cd1 }
          match setLastNum w5.isnk visnk with
          | none => .error w5
          | some cisnk =>
            .ok { w5 with isnk := cisnk,
                          d0s := w5.d0s.drop 1 ++ [vs] }

/-- The sample loop of `_append_and_trigger`: push each sample, read the
value at the trigger index, run the slope machine; fire breaks out of the
loop (the precondition write-back still runs), an exception aborts the
whole ingest step with the mutated window (`.error`). -/
def appendAndTrigger (key : String) (level : Level) (slope : String)
    (idx : Nat) :
    Window → Bool → List ℚ → List ℚ → List ℚ → List ℚ → List ℚ →
      List String → Except Window (Window × Bool × Bool)
  | w, precond, [], _, _, _, _, _ => .ok (w, precond, false)
  | w, precond, vi :: ti, la0, ld0, ld1, lisnk, ld0s =>
    match la0, ld0, ld1, lisnk, ld0s with
    | va0 :: t2, vd0 :: t3, vd1 :: t4, visnk :: t5, vs :: t6 =>
      (match pushSample w vi va0 vd0 vd1 visnk vs with
      | .error w1 => .error w1
      | .ok w1 =>
        match readTrig w1 key idx with
        | none => .error w1
        | some val =>
          match trigCompare val level slope precond with
          | none => .error w1
          | some (precond1, fired) =>
            if fired then .ok (w1, precond1, true)
            else appendAndTrigger key level slope idx w1 precond1
              ti t2 t3 t4 t5 t6)
    | _, _, _, _, _ => .error w

/-- `np.roll(a, -n)` followed by `a[-n:] = buf[:n]`; the roll succeeds
for any `n` (cyclic), the slice assignment raises when `n` exceeds the
array length (`.error` carries the rolled array). -/
def drainKey (a buf : List ℚ) (n : Nat) : Except (List ℚ) (List ℚ) :=
  if n ≤ a.length then .ok (a.drop n ++ buf.take n)
  else .error (a.rotateLeft n)

/-- Drain `_adc_buf` into the window (`for key in [...]`, then the
`d0s` list reassignment).  The first failing slice assignment aborts the
ingest step. -/
def drainBuf (w : Window) (buf : AdcBuf) : Except Window Window :=
  let n := buf.len
  match drainKey w.i buf.i n with
  | .error ri => .error { w with i := ri }
  | .ok ci =>
    match drainKey w.a0 buf.a0 n with
    | .error ra0 => .error { w with i := ci, a0 := ra0 }
    | .ok ca0 =>
      match drainKey w.d0 buf.d0 n with
      | .error rd0 => .error { w with i := ci, a0 := ca0, d0 := rd0 }
      | .ok cd0 =>
        match drainKey w.d1 buf.d1 n with
        | .error rd1 =>
            .error { w with i := ci, a0 := ca0, d0 := cd0, d1 := rd1 }
        | .ok cd1 =>
          match drainKey w.isnk buf.isnk n with
          | .error risnk =>
              .error { w with
                i := ci
                a0 := ca0
                d0 := cd0
                d1 := cd1
                isnk := risnk }
          | .ok cisnk =>
              .ok { w with
                i := ci
                a0 := ca0
                d0 := cd0
                d1 := cd1
                isnk := cisnk
                d0s := w.d0s.drop n ++ buf.d0s.take n }

/-- The back-pressure path: `data_ready` still set, stash the packet into
`_adc_buf` (or only log when it would overflow 12500), update the
buffered frame counter, return. -/
def bufferPath (s : EngineState) (item : AdcItem) (d0 d1 : List ℚ) :
    EngineState :=
  let n := item.i.length
  let cur := s.adcBuf.len
  let s1 := if cur + n ≤ 12500 then
      { s with adcBuf := { s.adcBuf with
          i := setSlice s.adcBuf.i cur item.i,
          a0 := setSlice s.adcBuf.a0 cur item.a0,
          d0 := setSlice s.adcBuf.d0 cur d0,
          d1 := setSlice s.adcBuf.d1 cur d1,
          isnk := setSlice s.adcBuf.isnk cur item.isnk,
          d0s := setSlice s.adcBuf.d0s cur item.d0s,
          len := s.adcBuf.len + n } }
    else s
  { s1 with bufferedAdcFrameCount := some (item.c + 1) }

/-- The initial-fill stage: copy as many samples as fit, advance `fill`. -/
def fillStage (s : EngineState) (item : AdcItem) (d0 d1 : List ℚ) :
    EngineState :=
  if s.adc.fill < s.numSamples then
    let n := item.i.length
    let cur := s.adc.fill
    let e := min (cur + n) s.numSamples
    let tk := e - cur
    { s with adc := { s.adc with
        i := setSlice s.adc.i cur (item.i.take tk),
        a0 := setSlice s.adc.a0 cur (item.a0.take tk),
        d0 := setSlice s.adc.d0 cur (d0.take tk),
        d1 := setSlice s.adc.d1 cur (d1.take tk),
        isnk := setSlice s.adc.isnk cur (item.isnk.take tk),
        d0s := setSlice s.adc.d0s cur (item.d0s.take tk),
        fill := e } }
  else s

/-- Oscilloscope-mode trigger detection (the body of the
`RUN`/`SINGLE` branch before the time-axis fill).  The `Bool` is false
when an exception escaped. -/
def detectTrig (s : EngineState) (item : AdcItem) (d0 d1 : List ℚ) :
    EngineState × Bool :=
  if s.triggerSrc = TRIG_SRC_NONE then
    ({ s with acquireTriggered := true }, true)
  else if ¬ s.acquireTriggered then
    match trigSrcMap s.triggerSrc with
    | none => (s, false)
    | some key =>
      match resolveSlope s.adc key s.triggerIdx s.triggerLevel
          s.triggerSlope with
      | none => (s, false)
      | some slope =>
        match appendAndTrigger key s.triggerLevel slope s.triggerIdx
            s.adc s.triggerIdxPrecond item.i item.a0 d0 d1 item.isnk
            item.d0s with
        | .error w1 => ({ s with adc := w1 }, false)
        | .ok (w1, precond1, fired) =>
            ({ s with
                adc := w1
                triggerIdxPrecond := precond1
                acquireTriggered := s.acquireTriggered || fired }, true)
  else (s, true)

/-- The time-axis fill that follows detection when `triggered` is set. -/
def taxisStage (s1 : EngineState) : EngineState :=
  if s1.acquireTriggered then
    let tstart : ℚ :=
      if s1.triggerPos = TRIG_POS_CENTER then -1 * s1.timebaseSpan / 2
      else if s1.triggerPos = TRIG_POS_LEFT then -1 * s1.timebaseSpan / 4
      else -3 * s1.timebaseSpan / 4
    let s2 := if s1.timebaseTRecalc then
        { s1 with
          timebaseTRecalc := false
          oscT := (List.range s1.numSamples).map
            (fun k => tstart + (k : ℚ) / ADC_SAMPLE_RATE) }
      else s1
    { s2 with adc := { s2.adc with t := s2.oscT } }
  else s1

/-- Trigger detection plus the time-axis fill (oscilloscope modes) or
the LOGGER-mode full-window trigger.  The `Bool` is false when an
exception escaped (skipping the `data_ready` block). -/
def detectStage (s : EngineState) (item : AdcItem) (d0 d1 : List ℚ) :
    EngineState × Bool :=
  if s.acquireMode = ACQUIRE_MODE_RUN ∨ s.acquireMode = ACQUIRE_MODE_SINGLE
  then
    match detectTrig s item d0 d1 with
    | (s1, false) => (s1, false)
    | (s1, true) => (taxisStage s1, true)
  else if s.acquireMode = ACQUIRE_MODE_LOGGER then
    if ¬ s.acquireTriggered ∧ s.numSamples ≤ s.adc.i.length then
      ({ s with acquireTriggered := true }, true)
    else (s, true)
  else (s, true)

/-- The `asc_triggered` block: first trigger with `data_ready` clear
sets `data_ready`, clears the precondition latch, and — when a consumer
callback is registered — snapshots the window for the callback and
resets via `_event_clear_datardy`. -/
def datardyStage (s : EngineState) : EngineState :=
  if s.acquireTriggered ∧ ¬ s.acquireDatardy then
    let s1 := { s with acquireDatardy := true, triggerIdxPrecond := false }
    if s1.cbRegistered then eventClearDatardy s1 else s1
  else s

/-- `_event_adc_stream_in` after the buffered-overflow decision:
frame-count bookkeeping, initial fill (early return while the window is
not full), detection, `data_ready`. -/
def afterDrain (s : EngineState) (item : AdcItem) (d0 d1 : List ℚ) :
    EngineState :=
  let s1 := { s with bufferedAdcFrameCount := some (item.c + 1) }
  let s2 := fillStage s1 item d0 d1
  if s2.adc.fill < s2.numSamples then s2
  else
    match detectStage s2 item d0 d1 with
    | (s3, false) => s3
    | (s3, true) => datardyStage s3

/-- `P1150._event_adc_stream_in(item)`: derive `d0`/`d1` from `d01`,
take the back-pressure path while `data_ready` is set, otherwise drain
any buffered overflow and run fill/detection. -/
def eventAdcStreamIn (s : EngineState) (item : AdcItem) : EngineState :=
  let d0 : List ℚ :=
    item.d01.map (fun b => ((b &&& 1 : Nat) : ℚ) * D0_VHIGH + D0_VLOW)
  let d1 : List ℚ :=
    item.d01.map (fun b => (((b >>> 1) &&& 1 : Nat) : ℚ) * D1_VHIGH + D1_VLOW)
  if s.acquireDatardy then bufferPath s item d0 d1
  else if 0 < s.adcBuf.len then
    match drainBuf s.adc s.adcBuf with
    | .error w1 => { s with adc := w1 }
    | .ok w1 =>
        afterDrain { s with adc := w1, adcBuf := { s.adcBuf with len := 0 } }
          item d0 d1
  else afterDrain s item d0 d1

/-- `P1150.adc_stream_in(item)`: gate on `_acquire`, then take the
stream lock and run `_event_adc_stream_in`. -/
def adc_stream_in (s : EngineState) (item : AdcItem) : EngineState :=
  if ¬ s.acquire then s else eventAdcStreamIn s item

/-! ### The trigger-engine invariant (C2) -/

/-- The invariant of the ingest step: the fill count never exceeds the
window size, `triggered` implies the window is full, and `data_ready`
implies `triggered`. -/
def EngineInv (s : EngineState) : Prop :=
  s.adc.fill ≤ s.numSamples ∧
  (s.acquireTriggered = true → s.adc.fill = s.numSamples) ∧
  (s.acquireDatardy = true → s.acquireTriggered = true)

/-- Well-formed packet: all per-sample channels have the same length
(50 on the wire; any common length works). -/
def ItemWF (item : AdcItem) : Prop :=
  item.isnk.length = item.i.length ∧ item.a0.length = item.i.length ∧
  item.d01.length = item.i.length ∧ item.d0s.length = item.i.length

/-- States reachable from any window reset under packet ingest and
window resets. -/
inductive Reach : EngineState → Prop
  | init (s0 : EngineState) : Reach (eventClearDatardy s0)
  | step {s : EngineState} (item : AdcItem) (hw : ItemWF item)
      (hs : Reach s) : Reach (eventAdcStreamIn s item)
  | clear {s : EngineState} (hs : Reach s) : Reach (eventClearDatardy s)

theorem eventClearDatardy_inv (s : EngineState) :
    EngineInv (eventClearDatardy s) := by
  refine ⟨Nat.zero_le _, ?_, ?_⟩ <;> intro h <;> simp [eventClearDatardy] at h

theorem pushSample_fill_error (w : Window) (vi va0 vd0 vd1 visnk : ℚ)
    (vs : String) (w' : Window)
    (h : pushSample w vi va0 vd0 vd1 visnk vs = .error w') :
    w'.fill = w.fill := by
  unfold pushSample at h
  simp only [] at h
  repeat' split at h
  all_goals first
    | (injection h with h1; subst h1; rfl)
    | cases h

theorem pushSample_fill_ok (w : Window) (vi va0 vd0 vd1 visnk : ℚ)
    (vs : String) (w' : Window)
    (h : pushSample w vi va0 vd0 vd1 visnk vs = .ok w') :
    w'.fill = w.fill := by
  unfold pushSample at h
  simp only [] at h
  repeat' split at h
  all_goals first
    | (injection h with h1; subst h1; rfl)
    | cases h

theorem appendAndTrigger_cons_error {key : String} {level : Level}
    {slope : String} {idx : Nat} {w : Window} {pc : Bool} {vi : ℚ}
    {ti : List ℚ} {va0 : ℚ} {t2 : List ℚ} {vd0 : ℚ} {t3 : List ℚ}
    {vd1 : ℚ} {t4 : List ℚ} {visnk : ℚ} {t5 : List ℚ} {vs : String}
    {t6 : List String} {w1 : Window}
    (hps : pushSample w vi va0 vd0 vd1 visnk vs = .error w1) :
    appendAndTrigger key level slope idx w pc (vi :: ti) (va0 :: t2)
      (vd0 :: t3) (vd1 :: t4) (visnk :: t5) (vs :: t6) = .error w1 := by
  rw [appendAndTrigger, hps]

theorem appendAndTrigger_cons_ok {key : String} {level : Level}
    {slope : String} {idx : Nat} {w : Window} {pc : Bool} {vi : ℚ}
    {ti : List ℚ} {va0 : ℚ} {t2 : List ℚ} {vd0 : ℚ} {t3 : List ℚ}
    {vd1 : ℚ} {t4 : List ℚ} {visnk : ℚ} {t5 : List ℚ} {vs : String}
    {t6 : List String} {w1 : Window}
    (hps : pushSample w vi va0 vd0 vd1 visnk vs = .ok w1) :
    appendAndTrigger key level slope idx w pc (vi :: ti) (va0 :: t2)
      (vd0 :: t3) (vd1 :: t4) (visnk :: t5) (vs :: t6)
      = match readTrig w1 key idx with
        | none => .error w1
        | some val =>
          match trigCompare val level slope pc with
          | none => .error w1
          | some (precond1, fired) =>
            if fired then .ok (w1, precond1, true)
            else appendAndTrigger key level slope idx w1 precond1
              ti t2 t3 t4 t5 t6 := by
  rw [appendAndTrigger, hps]

theorem appendAndTrigger_fill (key : String) (level : Level)
    (slope : String) (idx : Nat) :
    ∀ (li la0 ld0 ld1 lisnk : List ℚ) (ld0s : List String)
      (w : Window) (pc : Bool),
      (∀ w', appendAndTrigger key level slope idx w pc li la0 ld0 ld1
          lisnk ld0s = .error w' → w'.fill = w.fill) ∧
      (∀ w' pc' f, appendAndTrigger key level slope idx w pc li la0 ld0
          ld1 lisnk ld0s = .ok (w', pc', f) → w'.fill = w.fill) := by
  intro li
  induction li with
  | nil =>
    intro la0 ld0 ld1 lisnk ld0s w pc
    constructor
    · intro w' h
      simp [appendAndTrigger] at h
    · intro w' pc' f h
      rw [appendAndTrigger] at h
      cases h
      rfl
  | cons vi ti ih =>
    intro la0 ld0 ld1 lisnk ld0s w pc
    match la0, ld0, ld1, lisnk, ld0s with
    | [], _, _, _, _ =>
      constructor
      · intro w' h
        rw [appendAndTrigger] at h
        repeat' split at h
        all_goals first
          | (injection h with h1; subst h1; rfl)
          | (intros; contradiction)
          | (cases h; done)
      · intro w' pc' f h
        rw [appendAndTrigger] at h
        repeat' split at h
        all_goals first
          | (intros; contradiction)
          | (cases h; done)
    | va0 :: t2, [], _, _, _ =>
      constructor
      · intro w' h
        rw [appendAndTrigger] at h
        repeat' split at h
        all_goals first
          | (injection h with h1; subst h1; rfl)
          | (intros; contradiction)
          | (cases h; done)
      · intro w' pc' f h
        rw [appendAndTrigger] at h
        repeat' split at h
        all_goals first
          | (intros; contradiction)
          | (cases h; done)
    | va0 :: t2, vd0 :: t3, [], _, _ =>
      constructor
      · intro w' h
        rw [appendAndTrigger] at h
        repeat' split at h
        all_goals first
          | (injection h with h1; subst h1; rfl)
          | (intros; contradiction)
          | (cases h; done)
      · intro w' pc' f h
        rw [appendAndTrigger] at h
        repeat' split at h
        all_goals first
          | (intros; contradiction)
          | (cases h; done)
    | va0 :: t2, vd0 :: t3, vd1 :: t4, [], _ =>
      constructor
      · intro w' h
        rw [appendAndTrigger] at h
        repeat' split at h
        all_goals first
          | (injection h with h1; subst h1; rfl)
          | (intros; contradiction)
          | (cases h; done)
      · intro w' pc' f h
        rw [appendAndTrigger] at h
        repeat' split at h
        all_goals first
          | (intros; contradiction)
          | (cases h; done)
    | va0 :: t2, vd0 :: t3, vd1 :: t4, visnk :: t5, [] =>
      constructor
      · intro w' h
        rw [appendAndTrigger] at h
        repeat' split at h
        all_goals first
          | (injection h with h1; subst h1; rfl)
          | (intros; contradiction)
          | (cases h; done)
      · intro w' pc' f h
        rw [appendAndTrigger] at h
        repeat' split at h
        all_goals first
          | (intros; contradiction)
          | (cases h; done)
    | va0 :: t2, vd0 :: t3, vd1 :: t4, visnk :: t5, vs :: t6 =>
      constructor
      · intro w' h
        cases hps : pushSample w vi va0 vd0 vd1 visnk vs with
        | error w1 =>
          rw [appendAndTrigger_cons_error hps] at h
          injection h with h1
          subst h1
          exact pushSample_fill_error _ _ _ _ _ _ _ _ hps
        | ok w1 =>
          have hw1 := pushSample_fill_ok _ _ _ _ _ _ _ _ hps
          rw [@appendAndTrigger_cons_ok key level slope idx w pc vi ti
            va0 t2 vd0 t3 vd1 t4 visnk t5 vs t6 w1 hps] at h
          split at h
          · injection h with h1
            subst h1
            exact hw1
          · split at h
            · injection h with h1
              subst h1
              exact hw1
            · split at h
              · cases h
              · have := (ih t2 t3 t4 t5 t6 w1 _).1 w' h
                omega
      · intro w' pc' f h
        cases hps : pushSample w vi va0 vd0 vd1 visnk vs with
        | error w1 =>
          rw [appendAndTrigger_cons_error hps] at h
          cases h
        | ok w1 =>
          have hw1 := pushSample_fill_ok _ _ _ _ _ _ _ _ hps
          rw [@appendAndTrigger_cons_ok key level slope idx w pc vi ti
            va0 t2 vd0 t3 vd1 t4 visnk t5 vs t6 w1 hps] at h
          split at h
          · cases h
          · split at h
            · cases h
            · split at h
              · injection h with h1
                rw [show w1 = w' from congrArg Prod.fst h1] at hw1
                exact hw1
              · have := (ih t2 t3 t4 t5 t6 w1 _).2 w' pc' f h
                omega

theorem drainBuf_fill_error (w : Window) (buf : AdcBuf) (w' : Window)
    (h : drainBuf w buf = .error w') : w'.fill = w.fill := by
  unfold drainBuf at h
  simp only [] at h
  repeat' split at h
  all_goals first
    | (injection h with h1; subst h1; rfl)
    | cases h

theorem drainBuf_fill_ok (w : Window) (buf : AdcBuf) (w' : Window)
    (h : drainBuf w buf = .ok w') : w'.fill = w.fill := by
  unfold drainBuf at h
  simp only [] at h
  repeat' split at h
  all_goals first
    | (injection h with h1; subst h1; rfl)
    | cases h

theorem detectTrig_fields (s : EngineState) (item : AdcItem)
    (d0 d1 : List ℚ) :
    (detectTrig s item d0 d1).1.adc.fill = s.adc.fill ∧
    (detectTrig s item d0 d1).1.numSamples = s.numSamples ∧
    (detectTrig s item d0 d1).1.acquireDatardy = s.acquireDatardy ∧
    (s.acquireTriggered = true →
      (detectTrig s item d0 d1).1.acquireTriggered = true) := by
  by_cases hsrc : s.triggerSrc = TRIG_SRC_NONE
  · simp [detectTrig, hsrc]
  · by_cases htr : s.acquireTriggered = true
    · simp [detectTrig, hsrc, htr]
    · have htr' : ¬ s.acquireTriggered := by simpa using htr
      cases hmap : trigSrcMap s.triggerSrc with
      | none => simp [detectTrig, hsrc, htr', hmap]
      | some key =>
        cases hres : resolveSlope s.adc key s.triggerIdx s.triggerLevel
            s.triggerSlope with
        | none => simp [detectTrig, hsrc, htr', hmap, hres]
        | some slope =>
          cases happ : appendAndTrigger key s.triggerLevel slope
              s.triggerIdx s.adc s.triggerIdxPrecond item.i item.a0 d0 d1
              item.isnk item.d0s with
          | error w1 =>
            have hf := (appendAndTrigger_fill key s.triggerLevel slope
              s.triggerIdx item.i item.a0 d0 d1 item.isnk item.d0s
              s.adc s.triggerIdxPrecond).1 w1 happ
            simp [detectTrig, hsrc, htr', hmap, hres, happ, hf]
          | ok res =>
            obtain ⟨w1, pc1, fired⟩ := res
            have hf := (appendAndTrigger_fill key s.triggerLevel slope
              s.triggerIdx item.i item.a0 d0 d1 item.isnk item.d0s
              s.adc s.triggerIdxPrecond).2 w1 pc1 fired happ
            simp [detectTrig, hsrc, htr', hmap, hres, happ, hf]

theorem taxisStage_fields (s1 : EngineState) :
    (taxisStage s1).adc.fill = s1.adc.fill ∧
    (taxisStage s1).numSamples = s1.numSamples ∧
    (taxisStage s1).acquireDatardy = s1.acquireDatardy ∧
    (taxisStage s1).acquireTriggered = s1.acquireTriggered := by
  unfold taxisStage
  repeat' split
  all_goals simp

theorem detectStage_fields (s : EngineState) (item : AdcItem)
    (d0 d1 : List ℚ) :
    (detectStage s item d0 d1).1.adc.fill = s.adc.fill ∧
    (detectStage s item d0 d1).1.numSamples = s.numSamples ∧
    (detectStage s item d0 d1).1.acquireDatardy = s.acquireDatardy ∧
    (s.acquireTriggered = true →
      (detectStage s item d0 d1).1.acquireTriggered = true) := by
  unfold detectStage
  by_cases hm : s.acquireMode = ACQUIRE_MODE_RUN
      ∨ s.acquireMode = ACQUIRE_MODE_SINGLE
  · rw [if_pos hm]
    obtain ⟨h1, h2, h3, h4⟩ := detectTrig_fields s item d0 d1
    cases hdt : detectTrig s item d0 d1 with
    | mk s1 ok =>
      rw [hdt] at h1 h2 h3 h4
      cases ok with
      | false => exact ⟨h1, h2, h3, h4⟩
      | true =>
        obtain ⟨t1, t2, t3, t4⟩ := taxisStage_fields s1
        exact ⟨t1.trans h1, t2.trans h2, t3.trans h3,
          fun h => t4.trans (h4 h)⟩
  · rw [if_neg hm]
    by_cases hl : s.acquireMode = ACQUIRE_MODE_LOGGER
    · rw [if_pos hl]
      split <;> simp
    · rw [if_neg hl]
      simp

theorem bufferPath_fields (s : EngineState) (item : AdcItem)
    (d0 d1 : List ℚ) :
    (bufferPath s item d0 d1).adc = s.adc ∧
    (bufferPath s item d0 d1).acquireTriggered = s.acquireTriggered ∧
    (bufferPath s item d0 d1).acquireDatardy = s.acquireDatardy ∧
    (bufferPath s item d0 d1).numSamples = s.numSamples := by
  unfold bufferPath
  simp only []
  split <;> simp

theorem fillStage_fields (s : EngineState) (item : AdcItem)
    (d0 d1 : List ℚ) :
    (fillStage s item d0 d1).numSamples = s.numSamples ∧
    (fillStage s item d0 d1).acquireTriggered = s.acquireTriggered ∧
    (fillStage s item d0 d1).acquireDatardy = s.acquireDatardy := by
  unfold fillStage
  split <;> simp

theorem fillStage_fill (s : EngineState) (item : AdcItem)
    (d0 d1 : List ℚ) :
    (fillStage s item d0 d1).adc.fill
      = if s.adc.fill < s.numSamples
        then min (s.adc.fill + item.i.length) s.numSamples
        else s.adc.fill := by
  unfold fillStage
  split <;> simp

theorem datardyStage_inv (s : EngineState) (h : EngineInv s) :
    EngineInv (datardyStage s) := by
  unfold datardyStage
  split
  · rename_i hcond
    simp only []
    split
    · exact eventClearDatardy_inv _
    · obtain ⟨h1, h2, h3⟩ := h
      exact ⟨h1, fun ht => h2 (by simpa using hcond.1),
        fun _ => by simpa using hcond.1⟩
  · exact h

theorem afterDrain_inv (s : EngineState) (item : AdcItem)
    (d0 d1 : List ℚ) (h : EngineInv s) :
    EngineInv (afterDrain s item d0 d1) := by
  obtain ⟨h1, h2, h3⟩ := h
  unfold afterDrain
  simp only []
  set s1 : EngineState := { s with bufferedAdcFrameCount := some (item.c + 1) }
    with hs1
  have hs1f : s1.adc.fill = s.adc.fill := rfl
  have hs1n : s1.numSamples = s.numSamples := rfl
  have hs1t : s1.acquireTriggered = s.acquireTriggered := rfl
  have hs1d : s1.acquireDatardy = s.acquireDatardy := rfl
  obtain ⟨f1, f2, f3⟩ := fillStage_fields s1 item d0 d1
  have ffill := fillStage_fill s1 item d0 d1
  have hInv2 : EngineInv (fillStage s1 item d0 d1) := by
    refine ⟨?_, ?_, ?_⟩
    · rw [ffill, f1]
      split
      · exact min_le_right _ _
      · rw [hs1f, hs1n]; exact h1
    · intro ht
      rw [f2, hs1t] at ht
      rw [ffill, f1, hs1f, hs1n]
      split
      · rename_i hlt
        exact absurd (h2 ht) (by rw [hs1f, hs1n] at hlt; omega)
      · exact h2 ht
    · intro hd
      rw [f3, hs1d] at hd
      rw [f2, hs1t]
      exact h3 hd
  set s2 : EngineState := fillStage s1 item d0 d1 with hs2
  split
  · exact hInv2
  · rename_i hfull
    obtain ⟨g1, g2, g3⟩ := hInv2
    have hfeq : s2.adc.fill = s2.numSamples := by omega
    obtain ⟨d1f, d2f, d3f, d4f⟩ := detectStage_fields s2 item d0 d1
    cases hds : detectStage s2 item d0 d1 with
    | mk s3 ok =>
      rw [hds] at d1f d2f d3f d4f
      have hInv3 : EngineInv s3 := by
        refine ⟨?_, ?_, ?_⟩
        · rw [d1f, d2f]; omega
        · intro _
          rw [d1f, d2f]; exact hfeq
        · intro hd
          rw [d3f] at hd
          exact d4f (g3 hd)
      cases ok with
      | false => exact hInv3
      | true => exact datardyStage_inv s3 hInv3

/-- The ingest step preserves the invariant. -/
theorem eventAdcStreamIn_inv (s : EngineState) (item : AdcItem)
    (h : EngineInv s) : EngineInv (eventAdcStreamIn s item) := by
  obtain ⟨h1, h2, h3⟩ := h
  unfold eventAdcStreamIn
  simp only []
  split
  · -- back-pressure path
    obtain ⟨b1, b2, b3, b4⟩ := bufferPath_fields s item _ _
    exact ⟨by rw [b1, b4]; exact h1, fun ht => by rw [b1, b4]; exact h2 (b2 ▸ ht),
      fun hd => by rw [b2]; exact h3 (b3 ▸ hd)⟩
  · split
    · -- drain path
      cases hdr : drainBuf s.adc s.adcBuf with
      | error w1 =>
        have hf := drainBuf_fill_error s.adc s.adcBuf w1 hdr
        exact ⟨by simpa [hf] using h1, fun ht => by simpa [hf] using h2 ht,
          fun hd => h3 hd⟩
      | ok w1 =>
        have hf := drainBuf_fill_ok s.adc s.adcBuf w1 hdr
        apply afterDrain_inv
        exact ⟨by simpa [hf] using h1, fun ht => by simpa [hf] using h2 ht,
          fun hd => h3 hd⟩
    · exact afterDrain_inv s item _ _ ⟨h1, h2, h3⟩

/-- **C2** (trigger-engine state invariant): at every reachable state of
the per-packet ingest step, `triggered` set implies the window fill
count equals `NUM_SAMPLES` (the window is full), `data_ready` set
implies `triggered` is set, and the window-reset operation
`_event_clear_datardy` clears `triggered` and `data_ready` together. -/
theorem trigger_engine_invariant (s : EngineState) (hs : Reach s) :
    (s.acquireTriggered = true → s.adc.fill = s.numSamples) ∧
    (s.acquireDatardy = true → s.acquireTriggered = true) ∧
    (∀ s' : EngineState, (eventClearDatardy s').acquireTriggered = false ∧
      (eventClearDatardy s').acquireDatardy = false) := by
  have hinv : EngineInv s := by
    induction hs with
    | init s0 => exact eventClearDatardy_inv s0
    | step item hw hsr ih => exact eventAdcStreamIn_inv _ item ih
    | clear hsr ih => exact eventClearDatardy_inv _
    
  exact ⟨hinv.2.1, hinv.2.2, fun s' => ⟨rfl, rfl⟩⟩

/-! ### Witness state for the engine theorems -/

def engineState0 : EngineState where
  acquire := false
  acquireMode := ACQUIRE_MODE_RUN
  acquireTriggered := true
  acquireDatardy := true
  triggerLevel := Level.num 1
  triggerPos := TRIG_POS_LEFT
  triggerSlope := TRIG_SLOPE_RISE
  triggerSrc := TRIG_SRC_NONE
  triggerIdx := 0
  triggerIdxPrecond := false
  timebaseSpan := 1/100
  timebaseTRecalc := false
  oscT := []
  numSamples := 0
  adc := { t := [], i := [], a0 := [], d0 := [], d0s := [], d1 := [],
           isnk := [], fill := 0 }
  adcBuf := { t := [], i := [], a0 := [], d0 := [], d0s := [], d1 := [],
              isnk := [], len := 0 }
  bufferedAdcFrameCount := none
  cbRegistered := false

theorem trigger_engine_invariant_witness :
    ((eventClearDatardy engineState0).acquireTriggered = true →
      (eventClearDatardy engineState0).adc.fill
        = (eventClearDatardy engineState0).numSamples) ∧
    ((eventClearDatardy engineState0).acquireDatardy = true →
      (eventClearDatardy engineState0).acquireTriggered = true) ∧
    (∀ s' : EngineState, (eventClearDatardy s').acquireTriggered = false ∧
      (eventClearDatardy s').acquireDatardy = false) :=
  trigger_engine_invariant (eventClearDatardy engineState0)
    (Reach.init engineState0)

/-! ### C5: digital trigger level forcing -/

theorem pyInt_D0_half : (pyInt (D0_VHIGH / 2) : ℤ) = 500 := by
  norm_num [pyInt, D0_VHIGH]

/-- Counterexample to **C5** as stated: for source `TRIG_SRC_D1` the
stored level is `int(D0_VHIGH / 2) = 500`, not half of the D1 high
fake-voltage `D1_VHIGH / 2 = 550` — the code uses `D0_VHIGH` for both
digital sources. -/
theorem set_trigger_d1_counterexample :
    (set_trigger engineState0 TRIG_SRC_D1 TRIG_POS_LEFT TRIG_SLOPE_RISE
        (Level.num 7)).triggerLevel = Level.num 500 ∧
    Level.num (500 : ℚ) ≠ Level.num (D1_VHIGH / 2) := by
  constructor
  · show Level.num ((pyInt (D0_VHIGH / 2) : ℤ) : ℚ) = Level.num 500
    rw [pyInt_D0_half]; norm_num
  · intro h
    injection h with h
    norm_num [D1_VHIGH] at h

/-- **C5** (digital trigger level forcing, amended): every call to
`set_trigger` with source `D0` or `D1` stores the trigger level
`int(D0_VHIGH / 2) = 500` — `D0_VHIGH` is used for both digital
sources — regardless of the `level` argument passed by the caller. -/
theorem set_trigger_digital_level (s : EngineState)
    (src pos slope : String) (level : Level)
    (h : src = TRIG_SRC_D0 ∨ src = TRIG_SRC_D1) :
    (set_trigger s src pos slope level).triggerLevel = Level.num 500 := by
  have : (set_trigger s src pos slope level).triggerLevel
      = Level.num ((pyInt (D0_VHIGH / 2) : ℤ) : ℚ) := by
    simp [set_trigger, h]
  rw [this, pyInt_D0_half]; norm_num

theorem set_trigger_digital_level_witness :
    (TRIG_SRC_D1 = TRIG_SRC_D0 ∨ TRIG_SRC_D1 = TRIG_SRC_D1) ∧
    (set_trigger engineState0 TRIG_SRC_D1 TRIG_POS_CENTER TRIG_SLOPE_FALL
        (Level.num 7)).triggerLevel = Level.num 500 :=
  ⟨Or.inr rfl, set_trigger_digital_level engineState0 TRIG_SRC_D1
    TRIG_POS_CENTER TRIG_SLOPE_FALL (Level.num 7) (Or.inr rfl)⟩

/-! ### C6: geometry-changing setters -/

def c6State : EngineState := { engineState0 with
  numSamples := 1250
  triggerIdx := 312
  triggerPos := TRIG_POS_LEFT
  adc := { t := [], i := [], a0 := [], d0 := [], d0s := [], d1 := [],
           isnk := [], fill := 700 } }

/-- Counterexample to **C6** as stated: a `set_trigger` call that
changes the trigger position does not reset the engine — the trigger
index keeps its stale value (312 = ⌊1250/4⌋ for the old LEFT position,
where a recompute would give 625 = ⌊1250/2⌋ for CENTER) and the window
fill count is untouched. -/
theorem set_trigger_no_reset_counterexample :
    (set_trigger c6State TRIG_SRC_CUR TRIG_POS_CENTER TRIG_SLOPE_RISE
        (Level.num 1)).triggerPos ≠ c6State.triggerPos ∧
    (set_trigger c6State TRIG_SRC_CUR TRIG_POS_CENTER TRIG_SLOPE_RISE
        (Level.num 1)).triggerIdx = 312 ∧
    (setTriggerIdx (set_trigger c6State TRIG_SRC_CUR TRIG_POS_CENTER
        TRIG_SLOPE_RISE (Level.num 1))).triggerIdx = 625 ∧
    (set_trigger c6State TRIG_SRC_CUR TRIG_POS_CENTER TRIG_SLOPE_RISE
        (Level.num 1)).adc.fill = 700 := by
  refine ⟨by decide, rfl, by decide, rfl⟩

/-- **C6** (geometry-changing setters, amended): `set_timebase` on a
valid span immediately resets the trigger engine to the new geometry —
`NUM_SAMPLES` is recomputed from the new span, the window is cleared,
`triggered` and `data_ready` are cleared, and the trigger index is
recomputed from the new `NUM_SAMPLES`.  `set_trigger`, by contrast,
only records the new settings: it leaves `NUM_SAMPLES`, the trigger
index, the window and both flags unchanged, so a changed position
takes effect only at the next `acquisition_start` or `set_timebase`. -/
theorem geometry_setters (s : EngineState) (span : String) (tb : ℚ)
    (hspan : TBASE_MAP span = some tb)
    (src pos slope : String) (level : Level) :
    (∃ s', set_timebase s span = some s' ∧
      s'.numSamples = (pyInt (ADC_SAMPLE_RATE * tb)).toNat ∧
      s'.adc.fill = 0 ∧
      s'.acquireTriggered = false ∧ s'.acquireDatardy = false ∧
      s'.timebaseTRecalc = true ∧
      s'.triggerIdx =
        (if s.triggerPos = TRIG_POS_CENTER then s'.numSamples / 2
         else if s.triggerPos = TRIG_POS_LEFT then s'.numSamples / 4
         else 3 * s'.numSamples / 4)) ∧
    ((set_trigger s src pos slope level).numSamples = s.numSamples ∧
     (set_trigger s src pos slope level).triggerIdx = s.triggerIdx ∧
     (set_trigger s src pos slope level).adc = s.adc ∧
     (set_trigger s src pos slope level).acquireTriggered
       = s.acquireTriggered ∧
     (set_trigger s src pos slope level).acquireDatardy
       = s.acquireDatardy) := by
  constructor
  · refine ⟨setTriggerIdx (eventClearDatardy { s with timebaseSpan := tb }),
      ?_, rfl, rfl, rfl, rfl, rfl, rfl⟩
    unfold set_timebase
    rw [hspan]
  · exact ⟨rfl, rfl, rfl, rfl, rfl⟩

theorem geometry_setters_witness :
    TBASE_MAP "TBASE_SPAN_100MS" = some (1/10) ∧
    ((∃ s', set_timebase engineState0 "TBASE_SPAN_100MS" = some s' ∧
      s'.numSamples = (pyInt (ADC_SAMPLE_RATE * (1/10))).toNat ∧
      s'.adc.fill = 0 ∧
      s'.acquireTriggered = false ∧ s'.acquireDatardy = false ∧
      s'.timebaseTRecalc = true ∧
      s'.triggerIdx =
        (if engineState0.triggerPos = TRIG_POS_CENTER
           then s'.numSamples / 2
         else if engineState0.triggerPos = TRIG_POS_LEFT
           then s'.numSamples / 4
         else 3 * s'.numSamples / 4)) ∧
    ((set_trigger engineState0 TRIG_SRC_CUR TRIG_POS_CENTER
        TRIG_SLOPE_RISE (Level.num 1)).numSamples
        = engineState0.numSamples ∧
     (set_trigger engineState0 TRIG_SRC_CUR TRIG_POS_CENTER
        TRIG_SLOPE_RISE (Level.num 1)).triggerIdx
        = engineState0.triggerIdx ∧
     (set_trigger engineState0 TRIG_SRC_CUR TRIG_POS_CENTER
        TRIG_SLOPE_RISE (Level.num 1)).adc = engineState0.adc ∧
     (set_trigger engineState0 TRIG_SRC_CUR TRIG_POS_CENTER
        TRIG_SLOPE_RISE (Level.num 1)).acquireTriggered
        = engineState0.acquireTriggered ∧
     (set_trigger engineState0 TRIG_SRC_CUR TRIG_POS_CENTER
        TRIG_SLOPE_RISE (Level.num 1)).acquireDatardy
        = engineState0.acquireDatardy)) :=
  ⟨by simp [TBASE_MAP],
   geometry_setters engineState0 "TBASE_SPAN_100MS" (1/10)
    (by simp [TBASE_MAP]) TRIG_SRC_CUR TRIG_POS_CENTER TRIG_SLOPE_RISE
    (Level.num 1)⟩

/-! ### C10: acquisition_get_data error atomicity -/

/-- **C10** (`acquisition_get_data` error atomicity): when `data_ready`
is not set, the call returns the failure pair with the no-data error
and hands back the state completely unchanged (same window, fill count
and flags); only when `data_ready` is set does it return the channel
copies and reset the window via `_event_clear_datardy`, which empties
the window and clears both flags. -/
theorem acquisition_get_data_atomic (s : EngineState) :
    (s.acquireDatardy = false →
      acquisition_get_data s = ((false, GetDataResult.errorNoData), s)) ∧
    (s.acquireDatardy = true →
      acquisition_get_data s
        = ((true, GetDataResult.data s.adc.t s.adc.i s.adc.a0 s.adc.d0
            s.adc.d1 s.adc.isnk), eventClearDatardy s) ∧
      (eventClearDatardy s).adc.fill = 0 ∧
      (eventClearDatardy s).acquireTriggered = false ∧
      (eventClearDatardy s).acquireDatardy = false) := by
  constructor
  · intro h
    simp [acquisition_get_data, h]
  · intro h
    exact ⟨by simp [acquisition_get_data, h], rfl, rfl, rfl⟩

theorem acquisition_get_data_atomic_witness :
    acquisition_get_data engineState0
      = ((true, GetDataResult.data [] [] [] [] [] []),
         eventClearDatardy engineState0) :=
  ((acquisition_get_data_atomic engineState0).2 rfl).1

-- Sanity checks against the test vectors shipped with the source
example : enc [] = [1] := by decide
example : enc [0] = [1, 1] := by decide
example : enc [49, 50, 51] = [4, 49, 50, 51] := by decide
example : enc [49, 50, 51, 0] = [4, 49, 50, 51, 1] := by decide
example : enc [49, 50, 51, 0, 52, 53, 54] = [4, 49, 50, 51, 4, 52, 53, 54] := by decide
example : dec [4, 49, 50, 51, 4, 52, 53, 54] = some [49, 50, 51, 0, 52, 53, 54] := by decide
example : dec [1, 1] = some [0] := by decide
example : dec (enc (List.replicate 10 0)) = some (List.replicate 10 0) := by decide

end P1150
